import Mathlib

/-!
# FutureChamp chess engine — verification of the specification claims

This file is a shallow embedding, in Lean 4, of the parts of the
FutureChamp chess engine that the specification claims C1–C10 talk about:

* the board representation, attack generation, pseudo-legal move
  generation and legality filter (`src/utils/board.cpp`),
* `Search::make_move`, the transposition table, quiescence search,
  `alpha_beta`, `extract_pv` and the iterative-deepening driver
  `Search::search` (the search module),
* the FEN loader `Board::set_from_fen` and `Search::apply_uci_move`,
* the root human-selection layer (`HumanSelection::collect_candidates`
  and `HumanSelection::pick_human_move`).

Modelling conventions:

* C++ `uint64_t` bitboards are `Nat` values kept below `2 ^ 64` (all
  operations either preserve this bound or reduce modulo `2 ^ 64`
  explicitly); C++ `int` values are `Int`.
* The evaluation function is out of scope for the spec ("treated as an
  oracle `eval(position) → centipawns`"); it is a parameter
  `evalFn : Board → Int` of the search context.
* Wall-clock time and the external stop flag are not modelled: the
  periodic `should_stop()` poll is modelled as always returning `false`
  (no cancellation).  Diagnostics counters (`g_diag`) and `info`-line
  printing are pure output and are omitted; the node counter is kept
  because it lands in `SearchResult.nodes`.
* The unbounded C++ recursions (`alpha_beta`, `quiescence_search`) are
  embedded with an explicit fuel parameter; theorems are stated either
  for arbitrary fuel in successor form or with fuel large enough for the
  concrete run.
* IEEE-double arithmetic in the human-selection layer is modelled by
  exact rational arithmetic on unreduced fractions (`Frac`), with
  `std::exp` abstracted as an oracle `expFn : Frac → Frac`.
* C++ exceptions (`std::stoi` on a non-numeric token) and the one
  out-of-bounds `std::string` access make the FEN loader partial; it is
  embedded as `Option`-returning, `none` meaning "throws / undefined
  behaviour".
* The header `board.hpp` (piece constants, packed-move layout, bit
  helpers) is not present under `src/`; those definitions are modelled
  from the specification, as marked in their doc comments.
-/

set_option maxRecDepth 10000
set_option maxHeartbeats 2000000

namespace FC

/-- The 64-bit mask: C++ `uint64_t` arithmetic is done modulo this. -/
def U64MOD : Nat := 2 ^ 64

/-- Modelled from the spec: "Bitboard: 64-bit integer where bit `i`
represents square `i`"; `Bitboards::set` sets one bit. -/
def bbSet (bb : Nat) (sq : Int) : Nat := bb ||| (1 <<< sq.toNat)

/-- Modelled from the spec: `Bitboards::test` tests one bit. -/
def bbTest (bb : Nat) (sq : Int) : Bool := bb.testBit sq.toNat

/-- Modelled from the spec: `file_of(sq)` is `sq % 8` (square `i` =
`file + rank * 8`, as used throughout `board.cpp`). -/
def file_of (sq : Int) : Int := sq % 8

/-- Modelled from the spec: `rank_of(sq)` is `sq / 8`. -/
def rank_of (sq : Int) : Int := sq / 8

/-- Count of trailing zero bits, with fuel (64 suffices for `uint64_t`). -/
def ctz : Nat → Nat → Nat
  | 0, _ => 0
  | fuel + 1, x => if x % 2 = 1 then 0 else ctz fuel (x / 2) + 1

/-- Modelled from the spec: `Bitboards::lsb` — index of the least
significant set bit. -/
def lsbIdx (x : Nat) : Nat := ctz 64 x

/-- The ascending list of set-bit indices of a bitboard: the squares a
C++ `while (bb) { sq = pop_lsb(bb); … }` loop visits, in order.
Modelled from the spec (`pop_lsb` returns and clears the lowest bit). -/
def bitIdxs : Nat → Nat → List Int
  | 0, _ => []
  | fuel + 1, x =>
    if x = 0 then []
    else ((lsbIdx x : Nat) : Int) :: bitIdxs fuel (x &&& (x - 1))

/-- All squares of a bitboard, low to high. -/
def bits (x : Nat) : List Int := bitIdxs 64 x

/-- `Bitboards::popcount`, with fuel. -/
def popcntAux : Nat → Nat → Nat
  | 0, _ => 0
  | fuel + 1, x => if x = 0 then 0 else x % 2 + popcntAux fuel (x / 2)

/-- Modelled from the spec: `Bitboards::popcount`. -/
def popcount (x : Nat) : Nat := popcntAux 64 x

/-- Modelled from the spec: `Bitboards::color_of` — the colour of a
square (light/dark), used only by the same-coloured-bishops test of
`is_insufficient_material` ("K+B vs K+B with same-color bishops"). -/
def color_of (sq : Int) : Int := (file_of sq + rank_of sq) % 2

-- ### Move encoding
-- Modelled from the spec (`board.hpp` is not under `src/`): "Move is
-- encoded compactly: 6 bits `from`, 6 bits `to`, 2 bits `flag` ∈
-- {normal, promotion, en-passant, castle}, 2 bits promotion-kind".

/-- Modelled from the spec: normal-move flag. -/
def MOVE_NORMAL : Int := 0
/-- Modelled from the spec: promotion flag. -/
def MOVE_PROMOTION : Int := 1
/-- Modelled from the spec: en-passant flag. -/
def MOVE_EN_PASSANT : Int := 2
/-- Modelled from the spec: castling flag. -/
def MOVE_CASTLE : Int := 3

/-- Modelled from the spec: `Bitboards::make_move` packs
`from | to << 6 | flags << 12 | promo << 14`. -/
def mkMove (fromSq toSq flags promo : Int) : Int :=
  fromSq + toSq * 64 + flags * 4096 + promo * 16384

/-- Two-argument form (`flags = 0`, `promo = 0` defaults). -/
def mkMove2 (fromSq toSq : Int) : Int := mkMove fromSq toSq 0 0

/-- Three-argument form (`promo = 0` default). -/
def mkMove3 (fromSq toSq flags : Int) : Int := mkMove fromSq toSq flags 0

/-- Modelled from the spec: `Bitboards::move_from`. -/
def move_from (m : Int) : Int := m % 64

/-- Modelled from the spec: `Bitboards::move_to`. -/
def move_to (m : Int) : Int := (m / 64) % 64

/-- Modelled from the spec: `Bitboards::move_flags`. -/
def move_flags (m : Int) : Int := (m / 4096) % 4

/-- Modelled from the spec: `Bitboards::move_promotion`. -/
def move_promotion (m : Int) : Int := (m / 16384) % 4

/-- Modelled from the spec: `Bitboards::is_promotion`. -/
def is_promotion (m : Int) : Bool := move_flags m = MOVE_PROMOTION

/-- Modelled from the spec: `Bitboards::is_castle`. -/
def is_castle (m : Int) : Bool := move_flags m = MOVE_CASTLE

-- ### Piece and colour constants
-- Modelled from the spec together with their forced values in
-- `board.cpp` (`" PNBRQK"[p]` indexing, `for (pt = PAWN; pt <= KING)`,
-- `side_to_move == WHITE ? 'w' : 'b'`).

def NO_PIECE : Int := 0
def PAWN : Int := 1
def KNIGHT : Int := 2
def BISHOP : Int := 3
def ROOK : Int := 4
def QUEEN : Int := 5
def KING : Int := 6
def WHITE : Int := 0
def BLACK : Int := 1

-- ### Attack tables and sliding attacks (`board.cpp`, `namespace Bitboards`)

/-- The precomputed knight-attack table of `Bitboards::knight_attacks`. -/
def knightTable : List Nat :=
  [0x0000000000020400, 0x0000000000050800, 0x00000000000a1100, 0x0000000000142200,
   0x0000000000284400, 0x0000000000508800, 0x0000000000a01000, 0x0000000000402000,
   0x0000000002040004, 0x0000000005080008, 0x000000000a110011, 0x0000000014220022,
   0x0000000028440044, 0x0000000050880088, 0x00000000a0100010, 0x0000000040200020,
   0x0000000204000402, 0x0000000508000805, 0x0000000a1100110a, 0x0000001422002214,
   0x0000002844004428, 0x0000005088008850, 0x000000a0100010a0, 0x0000004020002040,
   0x0000020400040200, 0x0000050800080500, 0x00000a1100110a00, 0x0000142200221400,
   0x0000284400442800, 0x0000508800885000, 0x0000a0100010a000, 0x0000402000204000,
   0x0002040004020000, 0x0005080008050000, 0x000a1100110a0000, 0x0014220022140000,
   0x0028440044280000, 0x0050880088500000, 0x00a0100010a00000, 0x0040200020400000,
   0x0204000402000000, 0x0508000805000000, 0x0a1100110a000000, 0x1422002214000000,
   0x2844004428000000, 0x5088008850000000, 0xa0100010a0000000, 0x4020002040000000,
   0x0400040200000000, 0x0800080500000000, 0x1100110a00000000, 0x2200221400000000,
   0x4400442800000000, 0x8800885000000000, 0x100010a000000000, 0x2000204000000000,
   0x0004020000000000, 0x0008050000000000, 0x00110a0000000000, 0x0022140000000000,
   0x0044280000000000, 0x0088500000000000, 0x0010a00000000000, 0x0020400000000000]

/-- `Bitboards::knight_attacks(square)`. -/
def knight_attacks (sq : Int) : Nat := knightTable.getD sq.toNat 0

/-- The precomputed king-attack table of `Bitboards::king_attacks`. -/
def kingTable : List Nat :=
  [0x0000000000000302, 0x0000000000000507, 0x0000000000000A0E, 0x000000000000141C,
   0x0000000000002838, 0x0000000000005070, 0x000000000000A0E0, 0x00000000000040C0,
   0x0000000000030203, 0x0000000000070507, 0x00000000000E0A0E, 0x00000000001C141C,
   0x0000000000382838, 0x0000000000705070, 0x0000000000E0A0E0, 0x0000000000C040C0,
   0x0000000003020300, 0x0000000007050700, 0x000000000E0A0E00, 0x000000001C141C00,
   0x0000000038283800, 0x0000000070507000, 0x00000000E0A0E000, 0x00000000C040C000,
   0x0000000302030000, 0x0000000705070000, 0x0000000E0A0E0000, 0x0000001C141C0000,
   0x0000003828380000, 0x0000007050700000, 0x000000E0A0E00000, 0x000000C040C00000,
   0x0000030203000000, 0x0000070507000000, 0x00000E0A0E000000, 0x00001C141C000000,
   0x0000382838000000, 0x0000705070000000, 0x0000E0A0E0000000, 0x0000C040C0000000,
   0x0003020300000000, 0x0007050700000000, 0x000E0A0E00000000, 0x001C141C00000000,
   0x0038283800000000, 0x0070507000000000, 0x00E0A0E000000000, 0x00C040C000000000,
   0x0302030000000000, 0x0705070000000000, 0x0E0A0E0000000000, 0x1C141C0000000000,
   0x3828380000000000, 0x7050700000000000, 0xE0A0E00000000000, 0xC040C00000000000,
   0x0203000000000000, 0x0507000000000000, 0x0A0E000000000000, 0x141C000000000000,
   0x2838000000000000, 0x5070000000000000, 0xA0E0000000000000, 0x40C0000000000000]

/-- `Bitboards::king_attacks(square)`. -/
def king_attacks (sq : Int) : Nat := kingTable.getD sq.toNat 0

/-- One ray of a sliding attack: walk from `(x, y)` in direction
`(dx, dy)` for up to `fuel` steps, setting each square reached and
stopping after the first blocker — the body of the `for (step = 1; …)`
loops of `Bitboards::bishop_attacks` / `rook_attacks`. -/
def slideRay (blockers : Nat) : Nat → Int → Int → Int → Int → Nat
  | 0, _, _, _, _ => 0
  | fuel + 1, x, y, dx, dy =>
    let nx := x + dx
    let ny := y + dy
    if nx < 0 ∨ 8 ≤ nx ∨ ny < 0 ∨ 8 ≤ ny then 0
    else
      let nsq := nx + ny * 8
      let here := bbSet 0 nsq
      if bbTest blockers nsq then here
      else here ||| slideRay blockers fuel nx ny dx dy

/-- `Bitboards::bishop_attacks(square, blockers)`: the four diagonal
rays (up-right, up-left, down-right, down-left). -/
def bishop_attacks (sq : Int) (blockers : Nat) : Nat :=
  let x := file_of sq
  let y := rank_of sq
  slideRay blockers 7 x y 1 1 ||| slideRay blockers 7 x y (-1) 1 |||
  slideRay blockers 7 x y 1 (-1) ||| slideRay blockers 7 x y (-1) (-1)

/-- `Bitboards::rook_attacks(square, blockers)`: the four straight rays
(north, south, east, west). -/
def rook_attacks (sq : Int) (blockers : Nat) : Nat :=
  let x := file_of sq
  let y := rank_of sq
  slideRay blockers 7 x y 0 1 ||| slideRay blockers 7 x y 0 (-1) |||
  slideRay blockers 7 x y 1 0 ||| slideRay blockers 7 x y (-1) 0

/-- `Bitboards::queen_attacks`. -/
def queen_attacks (sq : Int) (blockers : Nat) : Nat :=
  bishop_attacks sq blockers ||| rook_attacks sq blockers

/-- `Bitboards::pawn_attacks(square, color)`. -/
def pawn_attacks (sq : Int) (color : Int) : Nat :=
  let file := file_of sq
  let rank := rank_of sq
  let forward : Int := if color = WHITE then 1 else -1
  let a : Nat :=
    if 0 < file ∧ 0 ≤ rank + forward ∧ rank + forward < 8 then
      bbSet 0 (sq + forward * 8 - 1)
    else 0
  if file < 7 ∧ 0 ≤ rank + forward ∧ rank + forward < 8 then
    bbSet a (sq + forward * 8 + 1)
  else a

-- ### Board representation (`board.hpp` fields, as used by `board.cpp`)

/-- The board: six per-piece-type bitboards, two colour bitboards, side
to move, the four castling rights (`castling[color][0] =` kingside,
`castling[color][1] =` queenside), en-passant square (`-1` = none),
halfmove clock, fullmove number and the Zobrist-style hash. -/
structure Board where
  pPawn : Nat
  pKnight : Nat
  pBishop : Nat
  pRook : Nat
  pQueen : Nat
  pKing : Nat
  cWhite : Nat
  cBlack : Nat
  side_to_move : Int
  castleWK : Bool
  castleWQ : Bool
  castleBK : Bool
  castleBQ : Bool
  en_passant_square : Int
  halfmove_clock : Int
  fullmove_number : Int
  hash : Nat
deriving Repr, DecidableEq

/-- The all-zero board (`Board::clear()` result, with the remaining
fields defaulted; `board.hpp` is missing, defaults modelled from the
spec). -/
def emptyBoard : Board :=
  { pPawn := 0, pKnight := 0, pBishop := 0, pRook := 0, pQueen := 0, pKing := 0,
    cWhite := 0, cBlack := 0, side_to_move := 0,
    castleWK := false, castleWQ := false, castleBK := false, castleBQ := false,
    en_passant_square := -1, halfmove_clock := 0, fullmove_number := 1, hash := 0 }

instance : Inhabited Board := ⟨emptyBoard⟩

namespace Board

/-- `pieces[pt]` array access. -/
def piecesBB (b : Board) (pt : Int) : Nat :=
  if pt = 1 then b.pPawn else if pt = 2 then b.pKnight
  else if pt = 3 then b.pBishop else if pt = 4 then b.pRook
  else if pt = 5 then b.pQueen else if pt = 6 then b.pKing else 0

/-- `colors[c]` array access. -/
def colorsBB (b : Board) (c : Int) : Nat :=
  if c = 0 then b.cWhite else if c = 1 then b.cBlack else 0

/-- `castling[color][wing]` access (`wing 0` = kingside). -/
def castGet (b : Board) (c w : Int) : Bool :=
  if c = 0 then (if w = 0 then b.castleWK else b.castleWQ)
  else (if w = 0 then b.castleBK else b.castleBQ)

/-- `castling[color][wing] = v` update. -/
def castSet (b : Board) (c w : Int) (v : Bool) : Board :=
  if c = 0 then
    (if w = 0 then { b with castleWK := v } else { b with castleWQ := v })
  else
    (if w = 0 then { b with castleBK := v } else { b with castleBQ := v })

/-- `pieces[pt] = bb` update (no change for an out-of-range index). -/
def setPiecesBB (b : Board) (pt : Int) (bb : Nat) : Board :=
  if pt = 1 then { b with pPawn := bb } else if pt = 2 then { b with pKnight := bb }
  else if pt = 3 then { b with pBishop := bb } else if pt = 4 then { b with pRook := bb }
  else if pt = 5 then { b with pQueen := bb } else if pt = 6 then { b with pKing := bb }
  else b

/-- `colors[c] = bb` update. -/
def setColorsBB (b : Board) (c : Int) (bb : Nat) : Board :=
  if c = 0 then { b with cWhite := bb } else if c = 1 then { b with cBlack := bb } else b

/-- `Board::add_piece` (`board.cpp`): returns early on `NO_PIECE`,
otherwise sets the bit in `pieces[piece_type]` and `colors[color]`. -/
def add_piece (b : Board) (square piece_type color : Int) : Board :=
  if piece_type = NO_PIECE then b
  else
    let b := b.setPiecesBB piece_type (bbSet (b.piecesBB piece_type) square)
    b.setColorsBB color (bbSet (b.colorsBB color) square)

/-- `Board::remove_piece` (`board.cpp`): clears the square in every
piece bitboard and in both colour bitboards. -/
def remove_piece (b : Board) (square : Int) : Board :=
  let m : Nat := (U64MOD - 1) ^^^ (1 <<< square.toNat)
  { b with pPawn := b.pPawn &&& m, pKnight := b.pKnight &&& m,
           pBishop := b.pBishop &&& m, pRook := b.pRook &&& m,
           pQueen := b.pQueen &&& m, pKing := b.pKing &&& m,
           cWhite := b.cWhite &&& m, cBlack := b.cBlack &&& m }

/-- `Board::piece_at` (`board.cpp`): bounds-checked, first matching
piece type from pawn up to king. -/
def piece_at (b : Board) (square : Int) : Int :=
  if square < 0 ∨ 64 ≤ square then NO_PIECE
  else if bbTest b.pPawn square then PAWN
  else if bbTest b.pKnight square then KNIGHT
  else if bbTest b.pBishop square then BISHOP
  else if bbTest b.pRook square then ROOK
  else if bbTest b.pQueen square then QUEEN
  else if bbTest b.pKing square then KING
  else NO_PIECE

/-- `Board::color_at` (`board.cpp`). -/
def color_at (b : Board) (square : Int) : Int :=
  if square < 0 ∨ 64 ≤ square then -1
  else if bbTest b.cWhite square then WHITE
  else if bbTest b.cBlack square then BLACK
  else -1

/-- `Board::is_empty`. -/
def is_empty (b : Board) (square : Int) : Bool := b.piece_at square = NO_PIECE

/-- `Board::pieces_of_color`. -/
def pieces_of_color (b : Board) (color : Int) : Nat := b.colorsBB color

/-- `Board::all_pieces`. -/
def all_pieces (b : Board) : Nat := b.cWhite ||| b.cBlack

end Board

-- ### Zobrist-style hash (`Board::compute_hash`, `board.cpp`)

/-- One step of the LCG that fills the `piece_keys` table. -/
def lcgStep (s : Nat) : Nat :=
  (s * 6364136223846793005 + 1442695040888963407) % U64MOD

/-- The generated key stream (`seed` starts at `0x123456789ABCDEF`;
entry `k` of the flattened `piece_keys[2][7][64]` table is the value of
`seed` after `k + 1` LCG steps). -/
def lcgList : Nat → Nat → List Nat
  | 0, _ => []
  | fuel + 1, s =>
    let s1 := lcgStep s
    s1 :: lcgList fuel s1

/-- The flattened `piece_keys` table, in generation order
(`[color][piece][square]`). -/
def pieceKeysList : List Nat := lcgList 896 0x123456789ABCDEF

/-- `piece_keys[c][p][sq]`. -/
def pieceKey (c p sq : Int) : Nat :=
  pieceKeysList.getD ((c.toNat * 7 + p.toNat) * 64 + sq.toNat) 0

/-- `Board::compute_hash` (`board.cpp`): XOR of piece-square keys, a
side-to-move constant, four castling constants and an en-passant term. -/
def Board.compute_hash (b : Board) : Board :=
  let h0 := (List.range 64).foldl
    (fun h sqn =>
      let sq : Int := Int.ofNat sqn
      let p := b.piece_at sq
      if p = NO_PIECE then h else h ^^^ pieceKey (b.color_at sq) p sq)
    0
  let h1 := if b.side_to_move = BLACK then h0 ^^^ 0xF0F0F0F0F0F0F0F0 else h0
  let h2 := if b.castleWK then h1 ^^^ 0x1111111111111111 else h1
  let h3 := if b.castleWQ then h2 ^^^ 0x2222222222222222 else h2
  let h4 := if b.castleBK then h3 ^^^ 0x4444444444444444 else h3
  let h5 := if b.castleBQ then h4 ^^^ 0x8888888888888888 else h4
  let h6 :=
    if b.en_passant_square ≠ -1 then
      h5 ^^^ ((b.en_passant_square.emod U64MOD).toNat * 31415926535) % U64MOD
    else h5
  { b with hash := h6 }

/-- `Bitboards::is_square_attacked(board, square, color)` (`board.cpp`):
is `square` attacked by any piece of `color`? -/
def is_square_attacked (b : Board) (square color : Int) : Bool :=
  let enemy_pawns := b.pPawn &&& b.colorsBB color
  let enemy_knights := b.pKnight &&& b.colorsBB color
  let enemy_bishops := b.pBishop &&& b.colorsBB color
  let enemy_rooks := b.pRook &&& b.colorsBB color
  let enemy_queens := b.pQueen &&& b.colorsBB color
  let enemy_king := b.pKing &&& b.colorsBB color
  if pawn_attacks square (1 - color) &&& enemy_pawns ≠ 0 then true
  else if knight_attacks square &&& enemy_knights ≠ 0 then true
  else if king_attacks square &&& enemy_king ≠ 0 then true
  else
    let all := b.all_pieces
    if bishop_attacks square all &&& (enemy_bishops ||| enemy_queens) ≠ 0 then true
    else if rook_attacks square all &&& (enemy_rooks ||| enemy_queens) ≠ 0 then true
    else false

/-- The king-location scan shared by `Board::is_in_check` and
`Search::is_legal`: the first square holding a king of `color`. -/
def findKing (b : Board) (color : Int) : Int :=
  match (List.range 64).find?
    (fun sqn => b.piece_at (Int.ofNat sqn) = KING ∧ b.color_at (Int.ofNat sqn) = color) with
  | some sqn => Int.ofNat sqn
  | none => -1

/-- `Board::is_in_check` (`board.cpp`): `false` when no king of that
colour is on the board. -/
def Board.is_in_check (b : Board) (color : Int) : Bool :=
  let king_sq := findKing b color
  if king_sq = -1 then false
  else is_square_attacked b king_sq (1 - color)

-- ### Pseudo-legal move generation (`Board::generate_moves`, `board.cpp`)

/-- The four promotion options pushed in a row (knight, bishop, rook,
queen — promo codes 0,1,2,3). -/
def promoMoves (sq cap : Int) : List Int :=
  [mkMove sq cap MOVE_PROMOTION 0, mkMove sq cap MOVE_PROMOTION 1,
   mkMove sq cap MOVE_PROMOTION 2, mkMove sq cap MOVE_PROMOTION 3]

/-- The moves generated for one pawn of the side to move (single push
with promotions, double push, the left then right capture targets with
promotions and en passant). -/
def genPawnAt (b : Board) (enemy_pieces : Nat) (sq : Int) : List Int :=
  let rank := rank_of sq
  let file := file_of sq
  let forward_dir : Int := if b.side_to_move = WHITE then 8 else -8
  let forward := sq + forward_dir
  let pushes : List Int :=
    if 0 ≤ forward ∧ forward < 64 ∧ b.is_empty forward then
      let to_rank := rank_of forward
      if (b.side_to_move = WHITE ∧ to_rank = 7) ∨ (b.side_to_move = BLACK ∧ to_rank = 0) then
        promoMoves sq forward
      else
        let start_rank : Int := if b.side_to_move = WHITE then 1 else 6
        let double_forward := forward + forward_dir
        mkMove2 sq forward ::
          (if rank = start_rank ∧ 0 ≤ double_forward ∧ double_forward < 64 ∧
              b.is_empty double_forward then
            [mkMove2 sq double_forward]
          else [])
    else []
  let capTargets : List Int :=
    (if 0 < file ∧ 0 ≤ sq + forward_dir - 1 ∧ sq + forward_dir - 1 < 64 then
      [sq + forward_dir - 1] else []) ++
    (if file < 7 ∧ 0 ≤ sq + forward_dir + 1 ∧ sq + forward_dir + 1 < 64 then
      [sq + forward_dir + 1] else [])
  let caps : List Int := capTargets.flatMap (fun cap =>
    let to_rank := rank_of cap
    if bbTest enemy_pieces cap then
      if (b.side_to_move = WHITE ∧ to_rank = 7) ∨ (b.side_to_move = BLACK ∧ to_rank = 0) then
        promoMoves sq cap
      else [mkMove2 sq cap]
    else if cap = b.en_passant_square then [mkMove3 sq cap MOVE_EN_PASSANT]
    else [])
  pushes ++ caps

/-- Moves of one leaper/slider from `sq` to every square of `attackSet`
not occupied by a friendly piece. -/
def genFromAttacks (our_pieces : Nat) (sq : Int) (attackSet : Nat) : List Int :=
  (bits (attackSet &&& ((U64MOD - 1) ^^^ our_pieces))).map (fun t => mkMove2 sq t)

/-- The castling table of `Board::generate_moves` (`CASTLING_DATA`):
`(king_from, king_to, path_mask, check_squares_mask)` per colour and
wing. -/
def castlingData (color wing : Int) : Int × Int × Nat × Nat :=
  if color = 0 then
    if wing = 0 then (4, 6, 0x60, 0x60) else (4, 2, 0xE, 0xC)
  else
    if wing = 0 then (60, 62, 0x6000000000000000, 0x6000000000000000)
    else (60, 58, 0xE00000000000000, 0xC00000000000000)

/-- One castling candidate: right held, path empty, crossed squares not
attacked. -/
def genCastle (b : Board) (all : Nat) (wing : Int) : List Int :=
  if b.castGet b.side_to_move wing then
    let d := castlingData b.side_to_move wing
    let path_clear := all &&& d.2.2.1 = 0
    if path_clear then
      let safe := (bits d.2.2.2).all
        (fun csq => ¬ is_square_attacked b csq (1 - b.side_to_move))
      if safe then [mkMove3 d.1 d.2.1 MOVE_CASTLE] else []
    else []
  else []

/-- The moves generated for one king of the side to move: the king
steps, then (if not in check) kingside and queenside castling. -/
def genKingAt (b : Board) (our_pieces all : Nat) (sq : Int) : List Int :=
  genFromAttacks our_pieces sq (king_attacks sq) ++
    (if ¬ b.is_in_check b.side_to_move then
      genCastle b all 0 ++ genCastle b all 1
    else [])

/-- `Board::generate_moves` (`board.cpp`): pawns, knights, bishops,
rooks, queens, then kings with castling, each scanned low square to
high. -/
def Board.generate_moves (b : Board) : List Int :=
  let our_pieces := b.pieces_of_color b.side_to_move
  let enemy_pieces := b.pieces_of_color (1 - b.side_to_move)
  let all := b.all_pieces
  (bits (b.pPawn &&& b.colorsBB b.side_to_move)).flatMap (genPawnAt b enemy_pieces) ++
  (bits (b.pKnight &&& b.colorsBB b.side_to_move)).flatMap
    (fun sq => genFromAttacks our_pieces sq (knight_attacks sq)) ++
  (bits (b.pBishop &&& b.colorsBB b.side_to_move)).flatMap
    (fun sq => genFromAttacks our_pieces sq (bishop_attacks sq all)) ++
  (bits (b.pRook &&& b.colorsBB b.side_to_move)).flatMap
    (fun sq => genFromAttacks our_pieces sq (rook_attacks sq all)) ++
  (bits (b.pQueen &&& b.colorsBB b.side_to_move)).flatMap
    (fun sq => genFromAttacks our_pieces sq (queen_attacks sq all)) ++
  (bits (b.pKing &&& b.colorsBB b.side_to_move)).flatMap (genKingAt b our_pieces all)

-- ### `Search::make_move` (part_001, the search module)

/-- `Search::make_move`: build the successor board of a move.  The four
branches (castle, en passant, promotion, normal) follow the source;
note that the castle branch does not reset the en-passant square and
that the promotion branch does not touch castling rights, exactly as in
the code. -/
def make_move (board : Board) (move : Int) : Board :=
  let fromSq := move_from move
  let toSq := move_to move
  let flags := move_flags move
  let promo := move_promotion move
  let piece := board.piece_at fromSq
  let color := board.color_at fromSq
  let captured := board.piece_at toSq
  let nb := { board with halfmove_clock := board.halfmove_clock + 1 }
  let nb :=
    if flags = MOVE_CASTLE then
      let nb := (nb.remove_piece fromSq).add_piece toSq KING color
      let nb :=
        if toSq > fromSq then
          (nb.remove_piece (fromSq + 3)).add_piece (fromSq + 1) ROOK color
        else
          (nb.remove_piece (fromSq - 4)).add_piece (fromSq - 1) ROOK color
      let nb := (nb.castSet color 0 false).castSet color 1 false
      { nb with halfmove_clock := 0 }
    else if flags = MOVE_EN_PASSANT then
      let nb := (nb.remove_piece fromSq).add_piece toSq PAWN color
      let captured_sq := toSq + (if color = WHITE then -8 else 8)
      let nb := nb.remove_piece captured_sq
      { nb with en_passant_square := -1, halfmove_clock := 0 }
    else if flags = MOVE_PROMOTION then
      let nb := nb.remove_piece fromSq
      let nb := if captured ≠ NO_PIECE then nb.remove_piece toSq else nb
      let promo_piece :=
        if promo = 0 then KNIGHT else if promo = 1 then BISHOP
        else if promo = 2 then ROOK else if promo = 3 then QUEEN else KNIGHT
      let nb := nb.add_piece toSq promo_piece color
      { nb with en_passant_square := -1, halfmove_clock := 0 }
    else
      let nb := nb.remove_piece fromSq
      let nb :=
        if captured ≠ NO_PIECE ∧ captured ≠ KING then
          { (nb.remove_piece toSq) with halfmove_clock := 0 }
        else nb
      let nb := nb.add_piece toSq piece color
      let nb :=
        if piece = PAWN then
          if (toSq - fromSq).natAbs = 16 then
            { nb with halfmove_clock := 0, en_passant_square := (fromSq + toSq) / 2 }
          else
            { nb with halfmove_clock := 0, en_passant_square := -1 }
        else { nb with en_passant_square := -1 }
      let nb :=
        if piece = KING then (nb.castSet color 0 false).castSet color 1 false else nb
      let nb :=
        if piece = ROOK then
          if color = WHITE then
            let nb := if fromSq = 0 then nb.castSet WHITE 1 false else nb
            if fromSq = 7 then nb.castSet WHITE 0 false else nb
          else
            let nb := if fromSq = 56 then nb.castSet BLACK 1 false else nb
            if fromSq = 63 then nb.castSet BLACK 0 false else nb
        else nb
      let nb :=
        if captured = ROOK then
          let nb := if toSq = 0 then nb.castSet WHITE 1 false else nb
          let nb := if toSq = 7 then nb.castSet WHITE 0 false else nb
          let nb := if toSq = 56 then nb.castSet BLACK 1 false else nb
          if toSq = 63 then nb.castSet BLACK 0 false else nb
        else nb
      nb
  let nb := { nb with side_to_move := 1 - color }
  let nb :=
    if color = BLACK then { nb with fullmove_number := nb.fullmove_number + 1 } else nb
  nb.compute_hash

/-- `Search::is_legal`: make the move on a copy, find our king in the
resulting position (illegal if absent), and require it unattacked. -/
def is_legal (board : Board) (move : Int) : Bool :=
  let test_board := make_move board move
  let our_color := board.side_to_move
  let king_sq := findKing test_board our_color
  if king_sq = -1 then false
  else ¬ is_square_attacked test_board king_sq (1 - our_color)

/-- `Search::generate_candidates`: the legal subset of the pseudo-legal
moves. -/
def generate_candidates (board : Board) : List Int :=
  board.generate_moves.filter (fun m => is_legal board m)

-- ### FEN parsing (`Board::set_from_fen`, `board.cpp`)

/-- Whitespace tokenisation of `std::istringstream` extraction
(`ss >> tok`): maximal non-whitespace runs, in order. -/
def splitWsAux : List Char → List Char → List String
  | [], acc => if acc = [] then [] else [String.mk acc.reverse]
  | c :: rest, acc =>
    if c.isWhitespace then
      if acc = [] then splitWsAux rest []
      else String.mk acc.reverse :: splitWsAux rest []
    else splitWsAux rest (c :: acc)

/-- The token stream of a FEN string. -/
def tokenize (s : String) : List String := splitWsAux s.data []

/-- `std::stoi` on a token: optional sign then at least one digit
(`none` models the `std::invalid_argument` / `std::out_of_range`
exceptions the C++ call can throw). -/
def stoi (s : String) : Option Int :=
  let cs := s.data
  let signed : Bool × List Char :=
    match cs with
    | c :: rest => if c = '-' then (true, rest) else if c = '+' then (false, rest) else (false, cs)
    | [] => (false, [])
  let ds := signed.2.takeWhile (fun c => c.isDigit)
  if ds = [] then none
  else
    let v : Nat := ds.foldl (fun a c => a * 10 + (c.toNat - 48)) 0
    let i : Int := if signed.1 then -(v : Int) else (v : Int)
    if i < -2147483648 ∨ 2147483647 < i then none else some i

/-- The piece letter map of the FEN board loop (`tolower` + switch). -/
def pieceOfChar (c : Char) : Option (Int × Bool) :=
  let is_white := ¬ (97 ≤ c.toNat ∧ c.toNat ≤ 122)
  let lc : Char := if 65 ≤ c.toNat ∧ c.toNat ≤ 90 then Char.ofNat (c.toNat + 32) else c
  if lc = 'p' then some (PAWN, is_white)
  else if lc = 'n' then some (KNIGHT, is_white)
  else if lc = 'b' then some (BISHOP, is_white)
  else if lc = 'r' then some (ROOK, is_white)
  else if lc = 'q' then some (QUEEN, is_white)
  else if lc = 'k' then some (KING, is_white)
  else none

/-- The board-field loop of `set_from_fen`: starts at a8 (square 56),
`/` moves down one rank (stopping the loop if the index underflows),
digits skip squares, piece letters add a piece when in range, all other
characters are skipped. -/
def fenBoardLoop : List Char → Int → Board → Board
  | [], _, b => b
  | c :: rest, sq, b =>
    if c = '/' then
      let sq2 := sq - 16
      if sq2 < 0 then b else fenBoardLoop rest sq2 b
    else if 49 ≤ c.toNat ∧ c.toNat ≤ 56 then
      fenBoardLoop rest (sq + ((c.toNat : Int) - 48)) b
    else
      match pieceOfChar c with
      | none => fenBoardLoop rest sq b
      | some pw =>
        let b2 :=
          if 0 ≤ sq ∧ sq < 64 then
            b.add_piece sq pw.1 (if pw.2 then WHITE else BLACK)
          else b
        fenBoardLoop rest (sq + 1) b2

/-- The en-passant field of `set_from_fen`: `-` means none, otherwise
`file = tok[0] - a` and `rank = tok[1] - 1`.  A one-character token
reads the terminating NUL (defined in C++), an empty token indexes out
of range (undefined behaviour, modelled as `none`). -/
def epParse (t : String) : Option Int :=
  if t = "-" then some (-1)
  else
    match t.data with
    | [] => none
    | [c0] => some (((c0.toNat : Int) - 97) + ((0 - 49) * 8 : Int))
    | c0 :: c1 :: _ => some (((c0.toNat : Int) - 97) + (((c1.toNat : Int) - 49) * 8))

/-- `Board::set_from_fen` (`board.cpp`).  The C++ function always
returns `true`; `none` models a thrown exception (non-numeric clock
token) or the undefined behaviour of an empty en-passant token.  The
fields that `set_from_fen` does not assign keep the defaults of
`emptyBoard` (the header with the member initialisers is not under
`src/`; defaults modelled from the spec). -/
def set_from_fen (fen : String) : Option (Board × Bool) :=
  let toks := tokenize fen
  let board_str := toks.getD 0 ""
  let side_str := toks.getD 1 ""
  let castling_str := toks.getD 2 ""
  let ep_str := toks.getD 3 ""
  let b := fenBoardLoop board_str.data 56 emptyBoard
  let b := { b with side_to_move := if side_str = "w" then WHITE else BLACK }
  let b := { b with
    castleWK := castling_str.data.contains 'K', castleWQ := castling_str.data.contains 'Q',
    castleBK := castling_str.data.contains 'k', castleBQ := castling_str.data.contains 'q' }
  match epParse ep_str with
  | none => none
  | some ep =>
    let b := { b with en_passant_square := ep }
    let t4 := toks.getD 4 ""
    let t5 := toks.getD 5 ""
    let h : Option Int := if t4 = "" then some b.halfmove_clock else stoi t4
    match h with
    | none => none
    | some hm =>
      let f : Option Int := if t5 = "" then some b.fullmove_number else stoi t5
      match f with
      | none => none
      | some fm =>
        some (({ b with halfmove_clock := hm, fullmove_number := fm }).compute_hash, true)

/-- `Board::get_fen` piece letter (`" PNBRQK"[p]`, lowercased for
black). -/
def pieceChar (p c : Int) : Char :=
  let ch := " PNBRQK".data.getD p.toNat ' '
  if c = BLACK then Char.ofNat (ch.toNat + 32) else ch

/-- One rank of `Board::get_fen` output. -/
def fenRow (b : Board) (rank : Int) : List Char :=
  let step := (List.range 8).foldl
    (fun (acc : List Char × Nat) filen =>
      let sq : Int := (filen : Int) + rank * 8
      let p := b.piece_at sq
      let c := b.color_at sq
      if p = NO_PIECE then (acc.1, acc.2 + 1)
      else
        let pre := if acc.2 > 0 then acc.1 ++ [Char.ofNat (48 + acc.2)] else acc.1
        (pre ++ [pieceChar p c], 0))
    ([], 0)
  if step.2 > 0 then step.1 ++ [Char.ofNat (48 + step.2)] else step.1

/-- `Board::get_fen` (`board.cpp`). -/
def Board.get_fen (b : Board) : String :=
  let rows := (List.range 8).map (fun i => fenRow b (7 - (i : Int)))
  let boardChars := List.intercalate ['/'] rows
  let cast :=
    (if b.castleWK then "K" else "") ++ (if b.castleWQ then "Q" else "") ++
    (if b.castleBK then "k" else "") ++ (if b.castleBQ then "q" else "")
  let castStr := if cast = "" then "-" else cast
  let epStr :=
    if b.en_passant_square = -1 then "-"
    else String.mk [Char.ofNat (97 + (file_of b.en_passant_square).toNat),
                    Char.ofNat (49 + (rank_of b.en_passant_square).toNat)]
  String.mk boardChars ++ " " ++ (if b.side_to_move = WHITE then "w" else "b") ++ " " ++
    castStr ++ " " ++ epStr ++ " " ++ toString b.halfmove_clock ++ " " ++
    toString b.fullmove_number

/-- `Bitboards::move_to_uci` (`board.cpp`). -/
def move_to_uci (m : Int) : String :=
  let fromSq := move_from m
  let toSq := move_to m
  let base := String.mk
    [Char.ofNat (97 + (file_of fromSq).toNat), Char.ofNat (49 + (rank_of fromSq).toNat),
     Char.ofNat (97 + (file_of toSq).toNat), Char.ofNat (49 + (rank_of toSq).toNat)]
  if move_flags m = MOVE_PROMOTION then
    base ++ String.mk ["nbrq".data.getD (move_promotion m).toNat 'q']
  else base

/-- `Search::apply_uci_move` (part_001): parse the FEN, list the legal
moves with their UCI strings, return the FEN unchanged when the string
matches none of them, otherwise apply the move (with the extra
fullmove-number update the function performs) and emit the new FEN.
`none` models an exception escaping from `set_from_fen`. -/
def apply_uci_move (fen uci_move : String) : Option String :=
  match set_from_fen fen with
  | none => none
  | some bp =>
    let board := bp.1
    let all_moves := board.generate_moves
    let legal_moves_with_uci :=
      (all_moves.filter (fun m => is_legal board m)).map (fun m => (m, move_to_uci m))
    let found := legal_moves_with_uci.find? (fun p => p.2 = uci_move)
    let matched_move : Int := (found.map Prod.fst).getD 0
    if matched_move = 0 then some fen
    else
      let new_board := make_move board matched_move
      let new_board := { new_board with
        fullmove_number := board.fullmove_number +
          (if board.side_to_move = BLACK then 1 else 0) }
      some new_board.get_fen

-- ### Search module state (part_001)

/-- `MATE_SCORE` (part_001). -/
def MATE_SCORE : Int := 30000
/-- `MATE_BOUND` (part_001). -/
def MATE_BOUND : Int := MATE_SCORE - 1000
/-- `TT_SIZE` (part_001): `1 << 20` entries. -/
def TT_SIZE : Nat := 1 <<< 20

/-- A transposition-table entry (`TTEntry`, part_001): flag 0 = empty,
1 = alpha (upper bound), 2 = beta (lower bound), 3 = exact. -/
structure TTEntry where
  hash : Nat
  depth : Int
  score : Int
  move : Int
  flag : Int
deriving Repr, DecidableEq

/-- The zero entry `initialize()` fills the table with. -/
def zeroEntry : TTEntry := { hash := 0, depth := 0, score := 0, move := 0, flag := 0 }

/-- The mutable search state: the transposition table (as a map from
index to entry), the killer-move slots per depth, the history-heuristic
table, the position-history stack (`position_history`) and the node
counter (`nodes_searched`). -/
structure SState where
  tt : Nat → TTEntry
  killers : Int → Int × Int
  histScores : Int → Int → Int
  history : List Nat
  nodes : Nat

/-- The state `Search::initialize()` produces: zeroed tables. -/
def initState : SState :=
  { tt := fun _ => zeroEntry, killers := fun _ => (0, 0),
    histScores := fun _ _ => 0, history := [], nodes := 0 }

/-- The search context: the externally supplied evaluation oracle (the
spec treats `Evaluation::evaluate` as an oracle), the global
depth-limit variable `max_depth` (default 20, set by
`set_depth_limit`). -/
structure SearchCtx where
  evalFn : Board → Int
  maxDepthG : Int := 20

/-- `Search::tt_index`. -/
def tt_index (hash : Nat) : Nat := hash &&& (TT_SIZE - 1)

/-- `Search::tt_store`: always-replace.  (The collision diagnostics
counter is output only and omitted.) -/
def tt_store (st : SState) (hash : Nat) (depth score move flag : Int) : SState :=
  { st with tt := fun i =>
      if i = tt_index hash then
        { hash := hash, depth := depth, score := score, move := move, flag := flag }
      else st.tt i }

/-- `Search::tt_probe`: a hit needs an exact hash match, sufficient
stored depth and a non-empty flag; on a miss the out-parameters stay
(0, 0). -/
def tt_probe (tt : Nat → TTEntry) (hash : Nat) (depth : Int) : Bool × Int × Int :=
  let e := tt (tt_index hash)
  if e.hash = hash ∧ e.depth ≥ depth ∧ e.flag ≠ 0 then (true, e.score, e.move)
  else (false, 0, 0)

/-- `Search::is_fifty_move_draw`. -/
def is_fifty_move_draw (b : Board) : Bool := b.halfmove_clock ≥ 100

/-- `Search::is_repetition_draw`: the position counts as a repetition
draw when its hash already occurs at least twice on the
position-history stack. -/
def is_repetition_draw (b : Board) (history : List Nat) : Bool :=
  history.countP (fun h => h = b.hash) ≥ 2

/-- `Search::is_insufficient_material`. -/
def is_insufficient_material (b : Board) : Bool :=
  let white_pawns := popcount (b.pPawn &&& b.cWhite)
  let black_pawns := popcount (b.pPawn &&& b.cBlack)
  let white_knights := popcount (b.pKnight &&& b.cWhite)
  let black_knights := popcount (b.pKnight &&& b.cBlack)
  let white_bishops := popcount (b.pBishop &&& b.cWhite)
  let black_bishops := popcount (b.pBishop &&& b.cBlack)
  let white_rooks := popcount (b.pRook &&& b.cWhite)
  let black_rooks := popcount (b.pRook &&& b.cBlack)
  let white_queens := popcount (b.pQueen &&& b.cWhite)
  let black_queens := popcount (b.pQueen &&& b.cBlack)
  if white_pawns + black_pawns + white_rooks + black_rooks + white_queens + black_queens > 0
  then false
  else
    let white_minor := white_knights + white_bishops
    let black_minor := black_knights + black_bishops
    if white_minor = 0 ∧ black_minor = 0 then true
    else if (white_minor = 1 ∧ black_minor = 0) ∨ (white_minor = 0 ∧ black_minor = 1) then true
    else if white_bishops = 1 ∧ black_bishops = 1 ∧ white_knights = 0 ∧ black_knights = 0 then
      let wsq := Int.ofNat (lsbIdx (b.pBishop &&& b.cWhite))
      let bsq := Int.ofNat (lsbIdx (b.pBishop &&& b.cBlack))
      color_of wsq = color_of bsq
    else false

/-- `Search::evaluate_position`: draw rules first, then the evaluation
oracle from the side-to-move perspective. -/
def evaluate_position (cfg : SearchCtx) (history : List Nat) (b : Board) (color : Int) : Int :=
  if is_fifty_move_draw b then 0
  else if is_repetition_draw b history then 0
  else if is_insufficient_material b then 0
  else if color = WHITE then cfg.evalFn b else -(cfg.evalFn b)

/-- `Search::get_piece_value`. -/
def get_piece_value (p : Int) : Int :=
  if p = PAWN then 100 else if p = KNIGHT then 320 else if p = BISHOP then 330
  else if p = ROOK then 500 else if p = QUEEN then 900 else 0

/-- `Search::see`: the first-order static exchange estimate (victim
minus attacker; promotion value for non-capture promotions). -/
def see (b : Board) (m : Int) : Int :=
  let attacker := b.piece_at (move_from m)
  let victim := b.piece_at (move_to m)
  if victim = NO_PIECE then
    if is_promotion m then
      ([320, 330, 500, 900].getD (move_promotion m).toNat 0 : Int) - 100
    else 0
  else get_piece_value victim - get_piece_value attacker

/-- `Search::mirror_square`. -/
def mirror_square (sq : Int) : Int :=
  let file := sq % 8
  let rank := sq / 8
  (7 - rank) * 8 + file

/-- `Search::score_move_for_order` (part_001).  The accumulation into
`score` before the capture test is kept even where a later unconditional
assignment makes it dead, mirroring the source. -/
def score_move_for_order (b : Board) (m tt_move depth : Int) (killers : Int → Int × Int)
    (histScores : Int → Int → Int) : Int :=
  if tt_move ≠ 0 ∧ m = tt_move then 1000000
  else
    let fromSq := move_from m
    let toSq := move_to m
    let piece := b.piece_at fromSq
    let captured := b.piece_at toSq
    let flags := move_flags m
    let e4d4 : Bool :=
      b.fullmove_number ≤ 3 ∧ piece = PAWN ∧
        (let target := if b.side_to_move = WHITE then toSq else mirror_square toSq
         (b.side_to_move = WHITE ∧ (target = 28 ∨ target = 27)) ∨
         (b.side_to_move = BLACK ∧ (target = 36 ∨ target = 35)))
    if e4d4 then 200000
    else if flags = MOVE_CASTLE then
      if b.fullmove_number ≤ 10 then 150000 else 100000
    else
      let score0 : Int :=
        if b.fullmove_number ≤ 10 then
          let s : Int :=
            if b.castGet b.side_to_move 0 ∨ b.castGet b.side_to_move 1 then
              let s : Int := if piece = KING then -50000 else 0
              if piece = ROOK then
                if b.side_to_move = WHITE then
                  let s := if fromSq = 0 ∧ b.castleWQ then s - 30000 else s
                  if fromSq = 7 ∧ b.castleWK then s - 30000 else s
                else
                  let s := if fromSq = 56 ∧ b.castleBQ then s - 30000 else s
                  if fromSq = 63 ∧ b.castleBK then s - 30000 else s
              else s
            else 0
          if piece = KNIGHT then s + 2000 else s
        else 0
    if captured ≠ NO_PIECE then
      90000 + get_piece_value captured * 10 - get_piece_value piece
    else if is_promotion m then 95000
    else if 0 ≤ depth ∧ depth < 64 ∧ m = (killers depth).1 then 85000
    else if 0 ≤ depth ∧ depth < 64 ∧ m = (killers depth).2 then 84000
    else if is_castle m then 80000
    else
      let score1 := histScores fromSq toSq
      let _ := score0
      if b.fullmove_number ≤ 20 then
        let to_file := file_of toSq
        let to_rank := rank_of toSq
        let center_dist := (to_file - 3).natAbs + (to_rank - 3).natAbs
        let score2 :=
          if (center_dist : Int) ≤ 3 then score1 + (3 - (center_dist : Int)) * 10 else score1
        if piece = KING ∧ captured = NO_PIECE then -100000
        else if b.fullmove_number ≤ 10 ∧ piece = KING ∧
            rank_of toSq ≠ (if b.side_to_move = WHITE then 0 else 7) then -50000
        else if piece = KNIGHT ∨ piece = BISHOP then
          let from_rank := rank_of fromSq
          let score3 :=
            if (b.side_to_move = WHITE ∧ from_rank = 0) ∨
               (b.side_to_move = BLACK ∧ from_rank = 7) then score2 + 30
            else score2
          if piece = KNIGHT ∧
             ((b.side_to_move = WHITE ∧ (toSq = 16 ∨ toSq = 18 ∨ toSq = 21 ∨ toSq = 23)) ∨
              (b.side_to_move = BLACK ∧ (toSq = 40 ∨ toSq = 42 ∨ toSq = 45 ∨ toSq = 47))) then
            score3 + 20
          else score3
        else score2
      else score1

/-- Stable insertion of a later element behind equal earlier elements:
the sorted order a `std::sort` call with a strict comparator produces,
with ties resolved stably. -/
def insertByBefore {α : Type} (before : α → α → Bool) (x : α) : List α → List α
  | [] => [x]
  | y :: ys => if before x y then x :: y :: ys else y :: insertByBefore before x ys

/-- Stable sort by a strict "comes before" comparator (models the
`std::sort` calls; the C++ order of tied elements is unspecified, the
model resolves ties stably). -/
def stableSortByBefore {α : Type} (before : α → α → Bool) (l : List α) : List α :=
  l.foldl (fun acc x => insertByBefore before x acc) []

/-- `Search::order_moves`: score every move and sort descending. -/
def order_moves (moves : List Int) (b : Board) (tt_move depth : Int)
    (killers : Int → Int × Int) (histScores : Int → Int → Int) : List Int :=
  stableSortByBefore
    (fun x y => score_move_for_order b x tt_move depth killers histScores >
                score_move_for_order b y tt_move depth killers histScores)
    moves

/-- The quiescence move comparator (promotions first, then MVV-LVA plus
SEE). -/
def qBefore (b : Board) (a c : Int) : Bool :=
  let prom_a := is_promotion a
  let prom_c := is_promotion c
  if prom_a ∧ ¬ prom_c then true
  else if ¬ prom_a ∧ prom_c then false
  else
    let score_a := get_piece_value (b.piece_at (move_to a)) * 10 -
      get_piece_value (b.piece_at (move_from a)) + see b a
    let score_c := get_piece_value (b.piece_at (move_to c)) * 10 -
      get_piece_value (b.piece_at (move_from c)) + see b c
    score_a > score_c

/-- `Search::update_history`: add the bonus for `(from, to)` and halve
the whole table when the touched cell exceeds the cap. -/
def update_history (st : SState) (m depth bonus : Int) : SState :=
  let fromSq := move_from m
  let toSq := move_to m
  let _ := depth
  let h1 : Int → Int → Int := fun i j =>
    if i = fromSq ∧ j = toSq then st.histScores i j + bonus else st.histScores i j
  if h1 fromSq toSq > 10000 then
    { st with histScores := fun i j => max 0 (h1 i j / 2) }
  else
    { st with histScores := h1 }

/-- The killer-slot rotation performed on a quiet beta cutoff. -/
def update_killers (st : SState) (depth m : Int) : SState :=
  if (st.killers depth).1 ≠ m then
    { st with killers := fun d =>
        if d = depth then (m, (st.killers depth).1) else st.killers d }
  else st

/-- The type of the recursive call handed to the loop helpers: state,
board, depth, alpha, beta, color, allow-null. -/
def ABRec := SState → Board → Int → Int → Int → Int → Bool → Int × SState

/-- The type of the quiescence recursive call. -/
def QRec := SState → Board → Int → Int → Int → Int × SState

/-- The move loop of `quiescence_search`: recurse on each move, raise
alpha, fail high on `alpha ≥ beta`. -/
def qLoop (recur : QRec) (b : Board) (beta color : Int) :
    List Int → SState → Int → Int × SState
  | [], st, alpha => (alpha, st)
  | m :: rest, st, alpha =>
    let nb := make_move b m
    let r := recur st nb (-beta) (-alpha) (1 - color)
    let score := -r.1
    let st := r.2
    if score > alpha then
      if score ≥ beta then (beta, st)
      else qLoop recur b beta color rest st score
    else qLoop recur b beta color rest st alpha

/-- `Search::quiescence_search` (part_001): stand-pat window handling
when not in check, full legal evasions when in check, otherwise
SEE-filtered captures and promotions; `return stand_pat` when no moves
survive. -/
def quiescence (cfg : SearchCtx) : Nat → SState → Board → Int → Int → Int → Int × SState
  | 0, st, _, _, _, _ => (0, st)
  | fuel + 1, st, b, alpha, beta, color =>
    let st := { st with nodes := st.nodes + 1 }
    let in_check := b.is_in_check color
    let stand_pat := evaluate_position cfg st.history b color
    if ¬ in_check ∧ stand_pat ≥ beta then (beta, st)
    else
      let alpha := if ¬ in_check ∧ stand_pat > alpha then stand_pat else alpha
      if ¬ in_check ∧ stand_pat < alpha - 975 then (alpha, st)
      else
        let moves :=
          if in_check then b.generate_moves.filter (fun m => is_legal b m)
          else b.generate_moves.filter (fun m =>
            is_legal b m ∧
            (b.piece_at (move_to m) ≠ NO_PIECE ∨ is_promotion m) ∧
            ¬ (see b m < -100))
        if moves = [] then (stand_pat, st)
        else
          let sorted := stableSortByBefore (qBefore b) moves
          qLoop (fun st nb a bt c => quiescence cfg fuel st nb a bt c)
            b beta color sorted st alpha

/-- The TT-move re-validation block of `alpha_beta` ("Validate TT move
against ALL legal moves"): a nonzero stored move that is not legal in
the current position is discarded together with the hit. -/
def validate_tt (b : Board) (tt_hit : Bool) (tt_move : Int) : Bool × Int :=
  if tt_hit ∧ tt_move ≠ 0 then
    if b.generate_moves.any (fun lm => is_legal b lm ∧ lm = tt_move) then (tt_hit, tt_move)
    else (false, 0)
  else (tt_hit, tt_move)

/-- `our_material` of the null-move gate: total piece value of `color`. -/
def side_material (b : Board) (color : Int) : Int :=
  (List.range 64).foldl
    (fun acc sqn =>
      let sq : Int := Int.ofNat sqn
      if b.color_at sq = color then acc + get_piece_value (b.piece_at sq) else acc)
    0

/-- The move loop of `alpha_beta`: recurse (pushing the parent hash on
the history stack around the call), track best score/move/flag, and on
a beta cutoff update killers (quiet moves only) and the history table
before breaking. -/
def abLoop (recur : ABRec) (b : Board) (depth beta color : Int) :
    List Int → SState → Int → Int → Int → Int → Int × Int × Int × SState
  | [], st, _, bestScore, bestMove, flag => (bestScore, bestMove, flag, st)
  | m :: rest, st, alpha, bestScore, bestMove, flag =>
    let nb := make_move b m
    let stPush := { st with history := b.hash :: st.history }
    let r := recur stPush nb (depth - 1) (-beta) (-alpha) (1 - color) true
    let score := -r.1
    let st := { r.2 with history := st.history }
    if score > bestScore then
      if score > alpha then
        if score ≥ beta then
          let st :=
            if b.piece_at (move_to m) = NO_PIECE ∧ 0 ≤ depth ∧ depth < 64 then
              update_killers st depth m
            else st
          let st := update_history st m depth (depth * depth)
          (score, m, 2, st)
        else abLoop recur b depth beta color rest st score score m 3
      else abLoop recur b depth beta color rest st alpha score m flag
    else abLoop recur b depth beta color rest st alpha bestScore bestMove flag

/-- `Search::alpha_beta` (part_001), with fuel.  Mate-distance pruning,
draw checks, TT probe with move re-validation and flag-blind score use,
quiescence at depth 0, null-move pruning, mate/stalemate detection,
check extension, ordered move loop, final TT store. -/
def alpha_beta (cfg : SearchCtx) :
    Nat → SState → Board → Int → Int → Int → Int → Bool → Int × SState
  | 0, st, _, _, _, _, _, _ => (0, st)
  | fuel + 1, st, b, depth, alpha, beta, color, allow_null =>
    let st := { st with nodes := st.nodes + 1 }
    let mate_alpha := max alpha (-MATE_SCORE + (cfg.maxDepthG - depth))
    let mate_beta := min beta (MATE_SCORE - (cfg.maxDepthG - depth))
    if mate_alpha ≥ mate_beta then (mate_alpha, st)
    else if is_fifty_move_draw b then (0, st)
    else if is_repetition_draw b st.history then (0, st)
    else if is_insufficient_material b then (0, st)
    else
      let pr := tt_probe st.tt b.hash depth
      let v := validate_tt b pr.1 pr.2.2
      let tt_hit := v.1
      let tt_score := pr.2.1
      let tt_move := v.2
      if tt_hit ∧ depth > 0 ∧ tt_score ≥ beta then (beta, st)
      else if tt_hit ∧ depth > 0 ∧ tt_score ≤ alpha then (alpha, st)
      else if depth = 0 then quiescence cfg fuel st b alpha beta color
      else
        let in_check := b.is_in_check color
        let nullRes : Option (Int × SState) :=
          if allow_null ∧ ¬ in_check ∧ depth ≥ 3 ∧ side_material b color > 400 then
            let null_board :=
              ({ b with side_to_move := 1 - color, en_passant_square := -1 }).compute_hash
            some (alpha_beta cfg fuel st null_board (depth - 1 - 2) (-beta) (-beta + 1)
              (1 - color) false)
          else none
        let cut : Bool :=
          match nullRes with
          | some r => -r.1 ≥ beta
          | none => false
        if cut then (beta, (nullRes.getD (0, st)).2)
        else
          let st := (nullRes.getD (0, st)).2
          let moves := generate_candidates b
          if moves = [] then
            if in_check then (-MATE_SCORE + (cfg.maxDepthG - depth), st) else (0, st)
          else
            let depth := if in_check ∧ depth < cfg.maxDepthG then depth + 1 else depth
            let ordered := order_moves moves b tt_move depth st.killers st.histScores
            let r := abLoop (fun st2 b2 d a bt c an => alpha_beta cfg fuel st2 b2 d a bt c an)
              b depth beta color ordered st alpha (-2147483647) (ordered.headD 0) 1
            let st := tt_store r.2.2.2 b.hash depth r.1 r.2.1 r.2.2.1
            (r.1, st)

-- ### PV extraction and the iterative-deepening driver (part_001)

/-- `Search::extract_pv` loop body: stop on repetition, on a missing or
hash-mismatched entry, on a null stored move, or on a stored move that
fails re-validation against the current legal moves; otherwise emit the
move and follow it. -/
def extract_pv_loop (tt : Nat → TTEntry) : Nat → Board → List Nat → List String
  | 0, _, _ => []
  | i + 1, board, seen =>
    if seen.any (fun h => h = board.hash) then []
    else
      let seen := board.hash :: seen
      let e := tt (tt_index board.hash)
      if e.hash ≠ board.hash then []
      else if e.move = 0 then []
      else if ¬ board.generate_moves.any (fun lm => lm = e.move ∧ is_legal board lm) then []
      else move_to_uci e.move :: extract_pv_loop tt i (make_move board e.move) seen

/-- `Search::extract_pv`: follow TT best moves for at most
`min(max_depth, 10)` steps. -/
def extract_pv (tt : Nat → TTEntry) (board : Board) (max_depth : Int) : List String :=
  extract_pv_loop tt (min max_depth 10).toNat board []

/-- The move-validity test the driver, the human-selection guard and
the final safety check all perform: scan the generated moves for a
legal one equal to `m`. -/
def isLegalIn (b : Board) (m : Int) : Bool :=
  b.generate_moves.any (fun x => is_legal b x ∧ x = m)

/-- The "find any legal move as fallback" scan of the driver. -/
def firstLegalOpt (b : Board) : Option Int :=
  b.generate_moves.find? (fun m => is_legal b m)

/-- The per-depth best-move update of `Search::search` (part_001,
lines 1132–1185): read the root TT entry, validate its move, fall back
to the first legal move, and finally discard the held move if it fails
validation. -/
def bestMoveUpdate (tt : Nat → TTEntry) (b : Board) (prev : Int) : Int :=
  let e := tt (tt_index b.hash)
  let afterTT :=
    if e.hash = b.hash ∧ e.move ≠ 0 then
      if isLegalIn b e.move then e.move
      else (firstLegalOpt b).getD prev
    else if prev = 0 then (firstLegalOpt b).getD prev
    else prev
  if afterTT ≠ 0 ∧ ¬ isLegalIn b afterTT then 0 else afterTT

/-- `SearchResult` (search.hpp).  `pv` is declared but never assigned
by `search`; `time_ms` is wall-clock and modelled as 0 on return. -/
structure SearchResult where
  best_move : Int
  score : Int
  depth : Int
  nodes : Int
  time_ms : Int
  pv : List String
deriving Repr, DecidableEq

/-- The iterative-deepening loop of `Search::search`: for each depth,
run `alpha_beta` over the full window, record score and depth, and
update the best move from the validated root TT entry.  (The `info`
line and the PV extraction feeding it are output only.) -/
def driverLoop (cfg : SearchCtx) (fuel : Nat) (b : Board) :
    Nat → Int → SState → SearchResult → SearchResult × SState
  | 0, _, st, res => (res, st)
  | n + 1, depth, st, res =>
    let r := alpha_beta cfg fuel st b depth (-MATE_SCORE) MATE_SCORE b.side_to_move true
    let st := r.2
    let res := { res with score := r.1, depth := depth }
    let res := { res with best_move := bestMoveUpdate st.tt b res.best_move }
    driverLoop cfg fuel b n (depth + 1) st res

-- ### Human selection (`human_selection.cpp`), with exact-rational
-- modelling of the `double` arithmetic

/-- An unreduced fraction: the model of a C++ `double` value in the
human-selection layer (exact rational arithmetic; `std::exp` is an
oracle). A zero denominator (division by zero, IEEE ±inf) is
unspecified-model territory and never reached with a positive
exponential oracle. -/
structure Frac where
  num : Int
  den : Int
deriving Repr, DecidableEq

/-- Sign-normalise (denominator made nonnegative). -/
def Frac.norm (a : Frac) : Frac :=
  if a.den < 0 then { num := -a.num, den := -a.den } else a

def fOfInt (n : Int) : Frac := { num := n, den := 1 }

def fAdd (a b : Frac) : Frac :=
  Frac.norm { num := a.num * b.den + b.num * a.den, den := a.den * b.den }

def fSub (a b : Frac) : Frac :=
  Frac.norm { num := a.num * b.den - b.num * a.den, den := a.den * b.den }

def fMul (a b : Frac) : Frac := Frac.norm { num := a.num * b.num, den := a.den * b.den }

def fDiv (a b : Frac) : Frac := Frac.norm { num := a.num * b.den, den := a.den * b.num }

def fLe (a b : Frac) : Bool :=
  let x := a.norm
  let y := b.norm
  x.num * y.den ≤ y.num * x.den

def fLt (a b : Frac) : Bool :=
  let x := a.norm
  let y := b.norm
  x.num * y.den < y.num * x.den

/-- `CandidateMove` (human_selection.hpp); the `weight` and
`probability` members are computed separately by the model. -/
structure CandidateMove where
  move : Int
  score : Int
deriving Repr, DecidableEq

instance : Inhabited CandidateMove := ⟨{ move := 0, score := 0 }⟩

/-- `HumanSelection::seeded_random`: the static LCG state is threaded
explicitly; a nonzero seed overwrites the state first.  Returns the
sample in [0, 1) and the new state. -/
def seeded_random (seed : Int) (state : Nat) : Frac × Nat :=
  let s0 : Nat := if seed ≠ 0 then (seed.emod (U64MOD : Int)).toNat else state
  let s1 := ((1103515245 * s0 + 12345) % U64MOD) % 2147483647
  ({ num := (s1 : Int), den := 2147483647 }, s1)

/-- `HumanSelection::is_edge_move_opening`. -/
def is_edge_move_opening (board : Board) (m : Int) : Bool :=
  let fromSq := move_from m
  let piece := board.piece_at fromSq
  if piece.emod 8 ≠ 2 ∧ piece.emod 8 ≠ 1 then false
  else
    let from_file := fromSq % 8
    let from_rank := fromSq / 8
    if piece.emod 8 = 2 then
      (from_rank = 2 ∧ (from_file = 0 ∨ from_file = 1 ∨ from_file = 6 ∨ from_file = 7)) ∨
      (from_rank = 5 ∧ (from_file = 0 ∨ from_file = 1 ∨ from_file = 6 ∨ from_file = 7))
    else
      (from_rank = 1 ∨ from_rank = 6) ∧ (from_file = 0 ∨ from_file = 7)

/-- The temporary board `collect_candidates` builds for a move: remove
the mover from its origin, add it on the destination (with the colour
taken from `piece >> 3`, which is always white for the 1–6 piece
codes), and only afterwards clear the destination square when the move
is a capture — wiping the just-moved piece together with the captured
one. -/
def collectTemp (board : Board) (m : Int) : Board :=
  let fromSq := move_from m
  let toSq := move_to m
  let piece := board.piece_at fromSq
  let temp := board.remove_piece fromSq
  let temp := temp.add_piece toSq (piece.emod 8) (piece / 8)
  if toSq ≠ fromSq ∧ board.piece_at toSq ≠ 0 then temp.remove_piece toSq else temp

/-- `HumanSelection::collect_candidates` (human_selection.cpp): score
every pseudo-legal move on its `collectTemp` board (skipping those
whose temp board leaves the mover "in check"), sort descending, apply
the hard floor, the opening-sanity penalty, the top-K override, and the
margin/count filter. -/
def collect_candidates (cfg : SearchCtx) (board : Board)
    (candidate_margin_cp candidate_moves_max maxDepthParam hard_floor_cp opening_sanity
      topk_override current_ply : Int) : List CandidateMove :=
  let _ := maxDepthParam
  let candidates := board.generate_moves.filterMap (fun m =>
    let piece := board.piece_at (move_from m)
    if piece = 0 then none
    else
      let temp := collectTemp board m
      if temp.is_in_check temp.side_to_move then none
      else some { move := m, score := cfg.evalFn temp })
  let candidates := stableSortByBefore (fun a c => a.score > c.score) candidates
  if candidates = [] then []
  else
    let best_score := (candidates.headD default).score
    let hard_floor := best_score - hard_floor_cp
    let candidates := candidates.filter (fun c => c.score ≥ hard_floor)
    let candidates :=
      if current_ply < 12 ∧ opening_sanity > 0 then
        stableSortByBefore (fun a c => a.score > c.score)
          (candidates.map (fun c =>
            if is_edge_move_opening board c.move then
              { c with score := c.score - opening_sanity * 5 }
            else c))
      else candidates
    let candidates :=
      if topk_override > 0 ∧ topk_override < (candidates.length : Int) then
        candidates.take topk_override.toNat
      else candidates
    let margin_floor := best_score - candidate_margin_cp
    let filtered := candidates.filter (fun c => c.score ≥ margin_floor)
    if (filtered.length : Int) > candidate_moves_max then
      filtered.take candidate_moves_max.toNat
    else filtered

/-- The cumulative-probability walk at the end of `pick_human_move`:
first candidate whose cumulative probability reaches the sample, the
first candidate when none does. -/
def cumWalk (r : Frac) : Frac → List (CandidateMove × Frac) → Int → Int
  | _, [], chosen => chosen
  | cum, p :: rest, chosen =>
    let cum2 := fAdd cum p.2
    if fLe r cum2 then p.1.move else cumWalk r cum2 rest chosen

/-- The per-candidate weight of `pick_human_move`: softmax of the score
gap at the floored temperature, optional multiplicative noise, risk
appetite, simplicity bias.  `expFn` is the `std::exp` oracle; the
state of the noise PRNG is threaded. -/
def candWeight (cfg : SearchCtx) (expFn : Frac → Frac)
    (best_score human_noise_cp risk_appetite simplicity_bias random_seed : Int)
    (temperature : Frac) (c : CandidateMove) (prng : Nat) : Frac × Nat :=
  let _ := cfg
  let score_diff := fDiv (fOfInt (c.score - best_score)) (fOfInt 100)
  let weight := expFn (fDiv score_diff (fAdd temperature (fDiv (fOfInt 1) (fOfInt 100))))
  let wn : Frac × Nat :=
    if human_noise_cp > 0 then
      let r := seeded_random (random_seed + c.move) prng
      let noise := fDiv
        (fMul (fMul (fSub r.1 (fDiv (fOfInt 1) (fOfInt 2))) (fOfInt 2)) (fOfInt human_noise_cp))
        (fOfInt 100)
      (fMul weight (expFn noise), r.2)
    else (weight, prng)
  let weight := wn.1
  let weight :=
    if risk_appetite > 100 then
      if c.score < best_score then
        fMul weight (fAdd (fOfInt 1)
          (fMul (fDiv (fOfInt (risk_appetite - 100)) (fOfInt 100))
            (fDiv (fOfInt 3) (fOfInt 10))))
      else weight
    else if risk_appetite < 100 then
      if c.score < best_score then
        fMul weight (fSub (fOfInt 1)
          (fMul (fDiv (fOfInt (100 - risk_appetite)) (fOfInt 100))
            (fDiv (fOfInt 1) (fOfInt 2))))
      else weight
    else weight
  let weight :=
    if simplicity_bias > 100 ∧ c.score < best_score - 50 then
      fMul weight (fSub (fOfInt 1)
        (fMul (fDiv (fOfInt (simplicity_bias - 100)) (fOfInt 100))
          (fDiv (fOfInt 3) (fOfInt 10))))
    else weight
  (weight, wn.2)

/-- `HumanSelection::pick_human_move` (human_selection.cpp): weight the
candidates, normalise, and sample with the seeded LCG.  Returns the
chosen move and the new PRNG state.  `sacrifice_bias` is accepted and,
as in the source, unused. -/
def pick_human_move (cfg : SearchCtx) (expFn : Frac → Frac) (prng : Nat)
    (candidates : List CandidateMove)
    (best_score human_temperature human_noise_cp risk_appetite sacrifice_bias
      simplicity_bias random_seed : Int) : Int × Nat :=
  let _ := sacrifice_bias
  if candidates = [] then (0, prng)
  else if candidates.length = 1 then ((candidates.headD default).move, prng)
  else
    let temperature := fDiv (fOfInt human_temperature) (fOfInt 100)
    let wr := candidates.foldl
      (fun (acc : List (CandidateMove × Frac) × Nat) c =>
        let w := candWeight cfg expFn best_score human_noise_cp risk_appetite
          simplicity_bias random_seed temperature c acc.2
        (acc.1 ++ [(c, w.1)], w.2))
      ([], prng)
    let weights := wr.1
    let total := weights.foldl (fun t p => fAdd t p.2) (fOfInt 0)
    let probs := weights.map (fun p => (p.1, fDiv p.2 total))
    let r := seeded_random (random_seed + 12345) wr.2
    (cumWalk r.1 (fOfInt 0) probs ((candidates.headD default).move), r.2)

-- ### `Search::search` (part_001)

/-- The personality parameters `search` and the human-selection layer
read (`Evaluation::Params`, params.hpp; only the consumed fields). -/
structure HParams where
  candidate_margin_cp : Int := 200
  candidate_moves_max : Int := 10
  human_select : Bool := true
  human_temperature : Int := 100
  human_noise_cp : Int := 0
  random_seed : Int := 0
  risk_appetite : Int := 100
  sacrifice_bias : Int := 100
  simplicity_bias : Int := 100
  human_hard_floor_cp : Int := 200
  human_opening_sanity : Int := 120
  human_topk_override : Int := 0

/-- The root human-selection block of `Search::search`: guarded by
`human_select` and a nonzero best move (the unstopped-search condition
is vacuous in the model), it collects candidates, asks
`pick_human_move`, re-validates the chosen move against the root legal
moves and only then replaces the best move. -/
def humanize (cfg : SearchCtx) (expFn : Frac → Frac) (params : HParams) (board : Board)
    (res : SearchResult) (prng : Nat) : SearchResult × Nat :=
  if params.human_select ∧ res.best_move ≠ 0 then
    let current_ply := board.halfmove_clock
    let candidates := collect_candidates cfg board params.candidate_margin_cp
      params.candidate_moves_max 3 params.human_hard_floor_cp params.human_opening_sanity
      params.human_topk_override current_ply
    if candidates ≠ [] ∧ candidates.length > 1 then
      let best_score := (candidates.headD default).score
      let pick := pick_human_move cfg expFn prng candidates best_score
        params.human_temperature params.human_noise_cp params.risk_appetite
        params.sacrifice_bias params.simplicity_bias params.random_seed
      let human_move := pick.1
      if human_move ≠ 0 then
        if isLegalIn board human_move then
          ({ res with best_move := human_move }, pick.2)
        else (res, pick.2)
      else (res, pick.2)
    else (res, prng)
  else (res, prng)

/-- The final safety check of `Search::search`: a nonzero best move
failing validation is replaced by the first legal move (and kept
unchanged when no legal move exists). -/
def finalLegalityCheck (board : Board) (res : SearchResult) : SearchResult :=
  if res.best_move ≠ 0 ∧ ¬ isLegalIn board res.best_move then
    { res with best_move := (firstLegalOpt board).getD res.best_move }
  else res

/-- `Search::search(fen, max_time_ms, max_search_depth)` (part_001).
`st0` is the value of the persistent global state (TT, killer and
history tables, position-history stack) at entry — the function clears
the position history and the node counter, runs the deepening loop,
applies human selection and the final safety check.  `none` models an
exception escaping from the FEN parse; time is not modelled (the search
never stops early). -/
def search (cfg : SearchCtx) (expFn : Frac → Frac) (params : HParams) (fuel : Nat)
    (st0 : SState) (prng0 : Nat) (fen : String) (max_time_ms_param max_search_depth : Int) :
    Option (SearchResult × SState × Nat) :=
  match set_from_fen fen with
  | none => none
  | some bp =>
    let board := bp.1
    let res : SearchResult :=
      { best_move := 0, score := 0, depth := max_search_depth, nodes := 0,
        time_ms := max_time_ms_param, pv := [] }
    let st := { st0 with history := [], nodes := 0 }
    let dr := driverLoop cfg fuel board max_search_depth.toNat 1 st res
    let st := dr.2
    let res := { dr.1 with nodes := (st.nodes : Int), time_ms := 0 }
    let hz := humanize cfg expFn params board res prng0
    let res := finalLegalityCheck board hz.1
    some (res, st, hz.2)

-- ### Foundational lemmas

theorem testBit_ctz : ∀ (fuel : Nat) {x : Nat}, x ≠ 0 → x < 2 ^ fuel →
    x.testBit (ctz fuel x) = true := by
  intro fuel
  induction fuel with
  | zero => intro x hx hb; omega
  | succ f ih =>
    intro x hx hb
    unfold ctz
    by_cases h1 : x % 2 = 1
    · simp [h1, Nat.testBit_zero]
    · have hx2 : x / 2 ≠ 0 := by omega
      have hb2 : x / 2 < 2 ^ f := by
        have : 2 ^ (f + 1) = 2 ^ f * 2 := by ring
        omega
      simp only [h1, if_false]
      rw [Nat.testBit_succ]
      exact ih hx2 hb2

theorem mem_bitIdxs : ∀ (fuel : Nat) {x : Nat} {i : Int}, x < U64MOD →
    i ∈ bitIdxs fuel x → 0 ≤ i ∧ i < 64 ∧ x.testBit i.toNat = true := by
  intro fuel
  induction fuel with
  | zero => intro x i _ hm; simp [bitIdxs] at hm
  | succ f ih =>
    intro x i hb hm
    unfold bitIdxs at hm
    by_cases hx : x = 0
    · simp [hx] at hm
    · simp only [hx, if_false, List.mem_cons] at hm
      rcases hm with hm | hm
      · subst hm
        have hbit : x.testBit (ctz 64 x) = true := testBit_ctz 64 hx hb
        have hge : 2 ^ (ctz 64 x) ≤ x := Nat.testBit_implies_ge hbit
        have hlt : ctz 64 x < 64 := by
          by_contra hc
          have : 2 ^ 64 ≤ 2 ^ (ctz 64 x) := Nat.pow_le_pow_right (by omega) (by omega)
          unfold U64MOD at hb
          omega
        unfold lsbIdx
        refine ⟨Int.natCast_nonneg _, by exact_mod_cast hlt, ?_⟩
        simpa using hbit
      · have hb2 : x &&& (x - 1) < U64MOD :=
          Nat.lt_of_le_of_lt Nat.and_le_left hb
        have h3 := ih hb2 hm
        refine ⟨h3.1, h3.2.1, ?_⟩
        have := h3.2.2
        rw [Nat.testBit_land] at this
        exact (Bool.and_elim_left this)

theorem mem_bits {x : Nat} {i : Int} (hb : x < U64MOD) (hm : i ∈ bits x) :
    0 ≤ i ∧ i < 64 ∧ x.testBit i.toNat = true :=
  mem_bitIdxs 64 hb hm

/-- Well-formedness: all eight bitboards fit in 64 bits. -/
def bWF (b : Board) : Prop :=
  b.pPawn < U64MOD ∧ b.pKnight < U64MOD ∧ b.pBishop < U64MOD ∧ b.pRook < U64MOD ∧
  b.pQueen < U64MOD ∧ b.pKing < U64MOD ∧ b.cWhite < U64MOD ∧ b.cBlack < U64MOD

instance (b : Board) : Decidable (bWF b) := by unfold bWF; infer_instance

theorem colorsBB_lt {b : Board} (h : bWF b) (c : Int) : b.colorsBB c < U64MOD := by
  unfold Board.colorsBB
  rcases h with ⟨_, _, _, _, _, _, h7, h8⟩
  split
  · exact h7
  · split
    · exact h8
    · unfold U64MOD; positivity

theorem mkMove_pos {f t fl p : Int} (hf : 0 ≤ f) (ht : 0 ≤ t) (hfl : 0 ≤ fl) (hp : 0 ≤ p)
    (h : 0 < f ∨ 0 < t ∨ 0 < fl ∨ 0 < p) : mkMove f t fl p ≠ 0 := by
  unfold mkMove; omega

theorem genFromAttacks_ne_zero {our : Nat} {sq m : Int} {A : Nat}
    (hour : our < U64MOD) (hsq0 : 0 ≤ sq)
    (hsq : our.testBit sq.toNat = true)
    (hm : m ∈ genFromAttacks our sq A) : m ≠ 0 := by
  unfold genFromAttacks at hm
  rw [List.mem_map] at hm
  obtain ⟨t, htmem, hmk⟩ := hm
  have hcb : (U64MOD - 1) ^^^ our < U64MOD := by
    have hmlt : U64MOD - 1 < 2 ^ 64 := by unfold U64MOD; omega
    exact Nat.xor_lt_two_pow hmlt hour
  have hb : A &&& ((U64MOD - 1) ^^^ our) < U64MOD :=
    Nat.lt_of_le_of_lt Nat.and_le_right hcb
  obtain ⟨ht0, ht64, htb⟩ := mem_bits hb htmem
  rw [Nat.testBit_land] at htb
  have htc := Bool.and_elim_right htb
  rw [Nat.testBit_xor] at htc
  have hmask : (U64MOD - 1).testBit t.toNat = true := by
    have : U64MOD - 1 = 2 ^ 64 - 1 := by unfold U64MOD; rfl
    rw [this, Nat.testBit_two_pow_sub_one]
    simp
    omega
  rw [hmask] at htc
  have htourf : our.testBit t.toNat = false := by
    cases hx : our.testBit t.toNat
    · rfl
    · rw [hx] at htc; simp at htc
  intro h0
  subst hmk
  unfold mkMove2 mkMove at h0
  have hsqt : sq = 0 ∧ t = 0 := by omega
  rw [hsqt.1] at hsq
  rw [hsqt.2] at htourf
  simp at hsq htourf
  rw [hsq] at htourf
  simp at htourf

theorem promoMoves_ne_zero {sq cap m : Int} (hsq : 0 ≤ sq) (hcap : 0 ≤ cap)
    (hm : m ∈ promoMoves sq cap) : m ≠ 0 := by
  unfold promoMoves at hm
  simp only [List.mem_cons, List.mem_singleton, List.not_mem_nil, or_false] at hm
  unfold MOVE_PROMOTION at hm
  rcases hm with h | h | h | h <;> subst h <;> unfold mkMove <;> omega

theorem genPawnAt_ne_zero {b : Board} {enemy : Nat} {sq m : Int}
    (hsq : 0 ≤ sq) (hm : m ∈ genPawnAt b enemy sq) : m ≠ 0 := by
  intro h0
  subst h0
  simp only [genPawnAt, List.mem_append] at hm
  rcases hm with hm | hm
  · simp only [promoMoves, mkMove2, mkMove, MOVE_PROMOTION] at hm
    split_ifs at hm <;>
      simp only [List.mem_cons, List.mem_singleton, List.not_mem_nil, or_false] at hm <;>
      omega
  · rw [List.mem_flatMap] at hm
    obtain ⟨cap, hcap, hm2⟩ := hm
    have hcapv : cap = sq + 8 - 1 ∨ cap = sq + 8 + 1 ∨ cap = sq - 8 - 1 ∨ cap = sq - 8 + 1 := by
      simp only [List.mem_append] at hcap
      rcases hcap with h | h <;> split_ifs at h <;>
        simp only [List.mem_singleton, List.not_mem_nil] at h <;> omega
    simp only [promoMoves, mkMove2, mkMove3, mkMove, MOVE_PROMOTION, MOVE_EN_PASSANT] at hm2
    split_ifs at hm2 <;>
      simp only [List.mem_cons, List.mem_singleton, List.not_mem_nil, or_false] at hm2 <;>
      omega

theorem genCastle_ne_zero {b : Board} {all : Nat} {wing m : Int}
    (hm : m ∈ genCastle b all wing) : m ≠ 0 := by
  intro h0
  subst h0
  simp only [genCastle, castlingData, mkMove3, mkMove, MOVE_CASTLE] at hm
  split_ifs at hm <;>
    simp only [List.mem_singleton, List.not_mem_nil] at hm <;> omega

theorem land_lt_U64 {x y : Nat} (hy : y < U64MOD) : x &&& y < U64MOD :=
  Nat.lt_of_le_of_lt Nat.and_le_right hy

theorem testBit_of_mem_bits_land {x y : Nat} {i : Int} (hy : y < U64MOD)
    (hm : i ∈ bits (x &&& y)) : 0 ≤ i ∧ i < 64 ∧ y.testBit i.toNat = true := by
  obtain ⟨h0, h64, hb⟩ := mem_bits (land_lt_U64 hy) hm
  rw [Nat.testBit_land] at hb
  exact ⟨h0, h64, Bool.and_elim_right hb⟩

theorem gen_ne_zero {b : Board} (hwf : bWF b) {m : Int}
    (hm : m ∈ b.generate_moves) : m ≠ 0 := by
  have hourlt : b.pieces_of_color b.side_to_move < U64MOD := colorsBB_lt hwf _
  have hclt : b.colorsBB b.side_to_move < U64MOD := colorsBB_lt hwf _
  simp only [Board.generate_moves, List.mem_append] at hm
  rcases hm with ((((hm | hm) | hm) | hm) | hm) | hm
  · obtain ⟨sq, hsqm, hin⟩ := List.mem_flatMap.mp hm
    exact genPawnAt_ne_zero (testBit_of_mem_bits_land hclt hsqm).1 hin
  · obtain ⟨sq, hsqm, hin⟩ := List.mem_flatMap.mp hm
    obtain ⟨h0, _, hb⟩ := testBit_of_mem_bits_land hclt hsqm
    exact genFromAttacks_ne_zero hourlt h0 hb hin
  · obtain ⟨sq, hsqm, hin⟩ := List.mem_flatMap.mp hm
    obtain ⟨h0, _, hb⟩ := testBit_of_mem_bits_land hclt hsqm
    exact genFromAttacks_ne_zero hourlt h0 hb hin
  · obtain ⟨sq, hsqm, hin⟩ := List.mem_flatMap.mp hm
    obtain ⟨h0, _, hb⟩ := testBit_of_mem_bits_land hclt hsqm
    exact genFromAttacks_ne_zero hourlt h0 hb hin
  · obtain ⟨sq, hsqm, hin⟩ := List.mem_flatMap.mp hm
    obtain ⟨h0, _, hb⟩ := testBit_of_mem_bits_land hclt hsqm
    exact genFromAttacks_ne_zero hourlt h0 hb hin
  · obtain ⟨sq, hsqm, hin⟩ := List.mem_flatMap.mp hm
    obtain ⟨h0, _, hb⟩ := testBit_of_mem_bits_land hclt hsqm
    simp only [genKingAt, List.mem_append] at hin
    rcases hin with hin | hin
    · exact genFromAttacks_ne_zero hourlt h0 hb hin
    · split_ifs at hin
      · simp at hin
      · rw [List.mem_append] at hin
        rcases hin with hin | hin
        · exact genCastle_ne_zero hin
        · exact genCastle_ne_zero hin

/-- Whether the position has any legal move. -/
def hasLegalMove (b : Board) : Bool := b.generate_moves.any (fun m => is_legal b m)

theorem isLegalIn_mem {b : Board} {m : Int} (h : isLegalIn b m = true) :
    m ∈ b.generate_moves ∧ is_legal b m = true := by
  unfold isLegalIn at h
  rw [List.any_eq_true] at h
  obtain ⟨x, hx, hp⟩ := h
  simp only [decide_eq_true_eq] at hp
  obtain ⟨hleg, heq⟩ := hp
  subst heq
  exact ⟨hx, hleg⟩

theorem isLegalIn_hasLegal {b : Board} {m : Int} (h : isLegalIn b m = true) :
    hasLegalMove b = true := by
  obtain ⟨hmem, hleg⟩ := isLegalIn_mem h
  unfold hasLegalMove
  rw [List.any_eq_true]
  exact ⟨m, hmem, hleg⟩

theorem isLegalIn_ne_zero {b : Board} {m : Int} (hwf : bWF b) (h : isLegalIn b m = true) :
    m ≠ 0 :=
  gen_ne_zero hwf (isLegalIn_mem h).1

theorem firstLegalOpt_isLegalIn {b : Board} {m : Int} (h : firstLegalOpt b = some m) :
    isLegalIn b m = true := by
  unfold firstLegalOpt at h
  have hp := List.find?_some h
  have hmem := List.mem_of_find?_eq_some h
  unfold isLegalIn
  rw [List.any_eq_true]
  exact ⟨m, hmem, by simp [hp]⟩

theorem firstLegalOpt_some_of_hasLegal {b : Board} (h : hasLegalMove b = true) :
    ∃ m, firstLegalOpt b = some m := by
  unfold hasLegalMove at h
  rw [List.any_eq_true] at h
  obtain ⟨x, hx, hp⟩ := h
  unfold firstLegalOpt
  rcases hf : b.generate_moves.find? (fun m => is_legal b m) with _ | m
  · rw [List.find?_eq_none] at hf
    exact absurd hp (hf x hx)
  · exact ⟨m, rfl⟩

theorem firstLegalOpt_none_of_noLegal {b : Board} (h : hasLegalMove b = false) :
    firstLegalOpt b = none := by
  unfold firstLegalOpt
  rcases hf : b.generate_moves.find? (fun m => is_legal b m) with _ | m
  · rfl
  · have := @firstLegalOpt_isLegalIn b m (by unfold firstLegalOpt; exact hf)
    rw [isLegalIn_hasLegal this] at h
    cases h

theorem bestMoveUpdate_cases (tt : Nat → TTEntry) (b : Board) (prev : Int) :
    bestMoveUpdate tt b prev = 0 ∨ isLegalIn b (bestMoveUpdate tt b prev) = true := by
  unfold bestMoveUpdate
  set after := (if (tt (tt_index b.hash)).hash = b.hash ∧ (tt (tt_index b.hash)).move ≠ 0 then
      if isLegalIn b (tt (tt_index b.hash)).move then (tt (tt_index b.hash)).move
      else (firstLegalOpt b).getD prev
    else if prev = 0 then (firstLegalOpt b).getD prev
    else prev) with hafter
  by_cases hc : after ≠ 0 ∧ ¬ isLegalIn b after = true
  · left; simp [hc]
  · rw [if_neg hc]
    rcases Decidable.not_and_iff_or_not.mp hc with h | h
    · left; simpa using h
    · right; simpa using h

theorem bestMoveUpdate_legal {tt : Nat → TTEntry} {b : Board} {prev : Int}
    (hleg : hasLegalMove b = true) (hprev : prev = 0 ∨ isLegalIn b prev = true) :
    isLegalIn b (bestMoveUpdate tt b prev) = true := by
  obtain ⟨fm, hfm⟩ := firstLegalOpt_some_of_hasLegal hleg
  have hfml := firstLegalOpt_isLegalIn hfm
  simp only [bestMoveUpdate]
  by_cases h1 : (tt (tt_index b.hash)).hash = b.hash ∧ (tt (tt_index b.hash)).move ≠ 0
  · rw [if_pos h1]
    by_cases h2 : isLegalIn b (tt (tt_index b.hash)).move = true
    · simp [h2]
    · simp only [h2, if_false, hfm, Option.getD_some]
      simp [hfml, h2]
  · rw [if_neg h1]
    by_cases h3 : prev = 0
    · simp [h3, hfm, hfml]
    · rcases hprev with h | h
      · exact absurd h h3
      · simp [h3, h]

theorem bestMoveUpdate_zero {tt : Nat → TTEntry} {b : Board}
    (hleg : hasLegalMove b = false) : bestMoveUpdate tt b 0 = 0 := by
  have hfn := firstLegalOpt_none_of_noLegal hleg
  simp only [bestMoveUpdate]
  by_cases h1 : (tt (tt_index b.hash)).hash = b.hash ∧ (tt (tt_index b.hash)).move ≠ 0
  · rw [if_pos h1]
    by_cases h2 : isLegalIn b (tt (tt_index b.hash)).move = true
    · rw [isLegalIn_hasLegal h2] at hleg; cases hleg
    · simp [h2, hfn]
  · simp [h1, hfn]

theorem driverLoop_legal {cfg : SearchCtx} {fuel : Nat} {b : Board} :
    ∀ (n : Nat) (depth : Int) (st : SState) (res : SearchResult),
    hasLegalMove b = true →
    (res.best_move = 0 ∨ isLegalIn b res.best_move = true) → 1 ≤ n →
    isLegalIn b ((driverLoop cfg fuel b n depth st res).1.best_move) = true := by
  intro n
  induction n with
  | zero => intro _ _ _ _ _ h1; omega
  | succ k ih =>
    intro depth st res hleg hprev _
    unfold driverLoop
    by_cases hk : 1 ≤ k
    · exact ih _ _ _ hleg (Or.inr (bestMoveUpdate_legal hleg hprev)) hk
    · have hk0 : k = 0 := by omega
      subst hk0
      unfold driverLoop
      exact bestMoveUpdate_legal hleg hprev

theorem driverLoop_zero {cfg : SearchCtx} {fuel : Nat} {b : Board} :
    ∀ (n : Nat) (depth : Int) (st : SState) (res : SearchResult),
    hasLegalMove b = false → res.best_move = 0 →
    (driverLoop cfg fuel b n depth st res).1.best_move = 0 := by
  intro n
  induction n with
  | zero => intro _ _ _ _ h0; exact h0
  | succ k ih =>
    intro depth st res hleg hprev
    unfold driverLoop
    exact ih _ _ _ hleg
      (by simpa [hprev] using
        @bestMoveUpdate_zero (alpha_beta cfg fuel st b depth (-MATE_SCORE) MATE_SCORE
          b.side_to_move true).2.tt b hleg)

theorem humanize_legal {cfg : SearchCtx} {e : Frac → Frac} {p : HParams} {b : Board}
    {res : SearchResult} {g : Nat} (h : isLegalIn b res.best_move = true) :
    isLegalIn b ((humanize cfg e p b res g).1.best_move) = true := by
  simp only [humanize]
  split_ifs with h1 h2 h3 h4 <;> simp_all

theorem humanize_zero {cfg : SearchCtx} {e : Frac → Frac} {p : HParams} {b : Board}
    {res : SearchResult} {g : Nat} (h : res.best_move = 0) :
    (humanize cfg e p b res g).1.best_move = 0 := by
  simp only [humanize]
  split_ifs with h1 <;> simp_all

theorem finalLegalityCheck_legal {b : Board} {res : SearchResult}
    (h : isLegalIn b res.best_move = true) :
    (finalLegalityCheck b res).best_move = res.best_move := by
  simp only [finalLegalityCheck]
  simp [h]

theorem finalLegalityCheck_zero {b : Board} {res : SearchResult}
    (h : res.best_move = 0) : (finalLegalityCheck b res).best_move = 0 := by
  simp only [finalLegalityCheck]
  simp [h]


theorem bbSet_lt {bb : Nat} {sq : Int} (hb : bb < U64MOD) (h0 : 0 ≤ sq) (h64 : sq < 64) :
    bbSet bb sq < U64MOD := by
  have ht : sq.toNat < 64 := by omega
  have h2 : (1 : Nat) <<< sq.toNat < 2 ^ 64 := by
    rw [Nat.shiftLeft_eq, one_mul]
    exact Nat.pow_lt_pow_right one_lt_two ht
  show bb ||| 1 <<< sq.toNat < U64MOD
  exact Nat.or_lt_two_pow hb h2

theorem add_piece_wf {b : Board} {sq pt c : Int} (hwf : bWF b) (h0 : 0 ≤ sq) (h64 : sq < 64) :
    bWF (b.add_piece sq pt c) := by
  obtain ⟨w1, w2, w3, w4, w5, w6, w7, w8⟩ := hwf
  unfold Board.add_piece Board.setPiecesBB Board.setColorsBB Board.piecesBB Board.colorsBB
  split_ifs <;>
    exact ⟨by first | exact bbSet_lt (by assumption) h0 h64 | assumption,
           by first | exact bbSet_lt (by assumption) h0 h64 | assumption,
           by first | exact bbSet_lt (by assumption) h0 h64 | assumption,
           by first | exact bbSet_lt (by assumption) h0 h64 | assumption,
           by first | exact bbSet_lt (by assumption) h0 h64 | assumption,
           by first | exact bbSet_lt (by assumption) h0 h64 | assumption,
           by first | exact bbSet_lt (by assumption) h0 h64 | assumption,
           by first | exact bbSet_lt (by assumption) h0 h64 | assumption⟩

theorem fenBoardLoop_wf : ∀ (cs : List Char) (sq : Int) (b : Board), bWF b →
    bWF (fenBoardLoop cs sq b) := by
  intro cs
  induction cs with
  | nil => intro sq b h; exact h
  | cons c rest ih =>
    intro sq b h
    by_cases h1 : c = '/'
    · simp only [fenBoardLoop, if_pos h1]
      by_cases h2 : sq - 16 < 0
      · simp only [if_pos h2]; exact h
      · simp only [if_neg h2]; exact ih _ _ h
    · by_cases h2 : 49 ≤ c.toNat ∧ c.toNat ≤ 56
      · simp only [fenBoardLoop, if_neg h1, if_pos h2]; exact ih _ _ h
      · rcases hp : pieceOfChar c with _ | pw
        · simp only [fenBoardLoop, if_neg h1, if_neg h2, hp]; exact ih _ _ h
        · simp only [fenBoardLoop, if_neg h1, if_neg h2, hp]
          by_cases h4 : 0 ≤ sq ∧ sq < 64
          · simp only [if_pos h4]; exact ih _ _ (add_piece_wf h h4.1 h4.2)
          · simp only [if_neg h4]; exact ih _ _ h

theorem compute_hash_wf {b : Board} (h : bWF b) : bWF b.compute_hash := by
  obtain ⟨w1, w2, w3, w4, w5, w6, w7, w8⟩ := h
  exact ⟨w1, w2, w3, w4, w5, w6, w7, w8⟩

theorem set_from_fen_wf {fen : String} {b : Board} {r : Bool}
    (h : set_from_fen fen = some (b, r)) : bWF b := by
  simp only [set_from_fen] at h
  split at h
  · cases h
  · split at h
    · cases h
    · split at h
      · cases h
      · simp only [Option.some.injEq, Prod.mk.injEq] at h
        obtain ⟨hb, _⟩ := h
        subst hb
        apply compute_hash_wf
        have base := fenBoardLoop_wf ((tokenize fen).getD 0 "").data 56 emptyBoard
          (by unfold bWF emptyBoard U64MOD; norm_num)
        obtain ⟨w1, w2, w3, w4, w5, w6, w7, w8⟩ := base
        exact ⟨w1, w2, w3, w4, w5, w6, w7, w8⟩


/-- The returned best move of a `search` call (0 when the call "threw"). -/
def bestOf (o : Option (SearchResult × SState × Nat)) : Int :=
  (o.map (fun r => r.1.best_move)).getD 0

/-- C1 (amended): for every `search` call whose FEN parses and whose
`max_depth` is at least 1, the returned `best_move` is a legal move of
the parsed position whenever one exists, and the null sentinel 0 is
returned exactly when the position has no legal moves.  (The original
claim is false at `max_depth = 0`: the iterative-deepening loop body
never runs and the driver returns the sentinel 0 even though legal
moves exist — see the counterexample.) -/
theorem c1_amended (cfg : SearchCtx) (ex : Frac → Frac) (p : HParams) (fuel : Nat)
    (st0 : SState) (g : Nat) (fen : String) (t d : Int) (b : Board) (fl : Bool)
    (hparse : set_from_fen fen = some (b, fl)) (hd : 1 ≤ d) :
    (search cfg ex p fuel st0 g fen t d).isSome = true ∧
    (hasLegalMove b = true →
      isLegalIn b (bestOf (search cfg ex p fuel st0 g fen t d)) = true ∧
      bestOf (search cfg ex p fuel st0 g fen t d) ≠ 0) ∧
    (hasLegalMove b = false → bestOf (search cfg ex p fuel st0 g fen t d) = 0) := by
  have hwf := set_from_fen_wf hparse
  refine ⟨by simp only [search, hparse, Option.isSome_some], ?_, ?_⟩
  · intro hleg
    simp only [search, hparse, bestOf, Option.map_some', Option.getD_some]
    have h1 := @driverLoop_legal cfg fuel b d.toNat 1
      { st0 with history := [], nodes := 0 }
      { best_move := 0, score := 0, depth := d, nodes := 0, time_ms := t, pv := [] }
      hleg (Or.inl rfl) (by omega)
    have step : ∀ R : SearchResult, isLegalIn b R.best_move = true →
        isLegalIn b (finalLegalityCheck b (humanize cfg ex p b R g).1).best_move = true ∧
        (finalLegalityCheck b (humanize cfg ex p b R g).1).best_move ≠ 0 := by
      intro R hR
      have h3 := @humanize_legal cfg ex p b R g hR
      constructor
      · rw [finalLegalityCheck_legal h3]; exact h3
      · rw [finalLegalityCheck_legal h3]; exact isLegalIn_ne_zero hwf h3
    exact step _ h1
  · intro hleg
    simp only [search, hparse, bestOf, Option.map_some', Option.getD_some]
    have h1 := @driverLoop_zero cfg fuel b d.toNat 1
      { st0 with history := [], nodes := 0 }
      { best_move := 0, score := 0, depth := d, nodes := 0, time_ms := t, pv := [] }
      hleg rfl
    have step0 : ∀ R : SearchResult, R.best_move = 0 →
        (finalLegalityCheck b (humanize cfg ex p b R g).1).best_move = 0 := by
      intro R hR
      exact finalLegalityCheck_zero (@humanize_zero cfg ex p b R g hR)
    exact step0 _ h1


-- ### Concrete fixtures for the claim theorems

/-- King and pawn vs king: white Ke1, Pe2, black Ke8, white to move
(clocks high enough to disable the opening heuristics). -/
def kpkFen : String := "4k3/8/8/8/8/8/4P3/4K3 w - - 30 40"

/-- The parsed `kpkFen` board. -/
def kpkBoard : Board := ((set_from_fen kpkFen).map Prod.fst).getD emptyBoard

/-- A constant evaluation oracle (100 cp for every position). -/
def evalConst100 : Board → Int := fun _ => 100

/-- Search context over the constant-100 oracle. -/
def cfg100 : SearchCtx := { evalFn := evalConst100 }

/-- The zero evaluation oracle. -/
def cfgZero : SearchCtx := { evalFn := fun _ => 0 }

/-- A constant exponential oracle (every weight 1): one admissible
model of `std::exp` values for the sampling-independence arguments. -/
def expOne : Frac → Frac := fun _ => fOfInt 1

/-- Personality parameters with the human layer off (temperature 0,
seed 1 to fix the PRNG). -/
def noSelectParams : HParams :=
  { human_select := false, human_temperature := 0, random_seed := 1 }

/-- Personality parameters of claim C5: `HumanSelect=true`,
`HumanTemperature=0`, `CandidateMarginCp=200` (the default), seed 1. -/
def tempZeroParams : HParams := { human_temperature := 0, random_seed := 1 }

/-- The evaluation oracle of the C5 counterexample: on white-to-move
boards (the shallow candidate boards built by `collect_candidates`,
which do not toggle the side to move) it scores king-on-d1 at 300 and
king-on-f1 at 250; on black-to-move boards (the true `make_move`
successors searched by `alpha_beta`) it scores pawn-on-e3 at 500. -/
def evalSplit : Board → Int := fun b =>
  if b.side_to_move = WHITE then
    (if b.pKing.testBit 3 then 300 else if b.pKing.testBit 5 then 250 else 0)
  else (if b.pPawn.testBit 20 then 500 else 0)

/-- Search context over `evalSplit`. -/
def cfgSplit : SearchCtx := { evalFn := evalSplit }

-- ### C1: counterexample and witness

/-- Claim C1 counterexample input: `search(kpkFen, 1000, 0)` — a legal
position searched with `max_depth = 0`. -/
theorem c1_counterexample :
    hasLegalMove kpkBoard = true ∧
    set_from_fen kpkFen = some (kpkBoard, true) ∧
    (search cfg100 expOne noSelectParams 30 initState 1 kpkFen 1000 0).isSome = true ∧
    bestOf (search cfg100 expOne noSelectParams 30 initState 1 kpkFen 1000 0) = 0 := by
  refine ⟨by decide, by decide, by decide, by decide⟩

/-- Claim C1 witness: at `max_depth = 1` the returned move is legal and
nonzero on the same position. -/
theorem c1_witness :
    hasLegalMove kpkBoard = true ∧
    isLegalIn kpkBoard (bestOf (search cfg100 expOne noSelectParams 30 initState 1 kpkFen 1000 1)) = true ∧
    bestOf (search cfg100 expOne noSelectParams 30 initState 1 kpkFen 1000 1) ≠ 0 := by
  have h := c1_amended cfg100 expOne noSelectParams 30 initState 1 kpkFen 1000 1 kpkBoard true
    (by decide) (by decide)
  exact ⟨by decide, (h.2.1 (by decide)).1, (h.2.1 (by decide)).2⟩


end FC

namespace FC

-- ### C2 infrastructure

/-- A principal variation is legal when each printed move is a
generated, legality-checked move of the position it is played in. -/
inductive PVLegal : Board → List String → Prop
  | nil (b : Board) : PVLegal b []
  | cons (b : Board) (m : Int) (rest : List String) :
      m ∈ b.generate_moves → is_legal b m = true →
      PVLegal (make_move b m) rest → PVLegal b (move_to_uci m :: rest)

theorem extract_pv_loop_legal (tt : Nat → TTEntry) :
    ∀ (fuel : Nat) (b : Board) (seen : List Nat),
    PVLegal b (extract_pv_loop tt fuel b seen) := by
  intro fuel
  induction fuel with
  | zero => intro b seen; exact PVLegal.nil b
  | succ i ih =>
    intro b seen
    simp only [extract_pv_loop]
    split_ifs with h1 h2 h3 h4
    · exact PVLegal.nil b
    · exact PVLegal.nil b
    · exact PVLegal.nil b
    · rw [List.any_eq_true] at h4
      obtain ⟨lm, hmem, hp⟩ := h4
      simp only [decide_eq_true_eq] at hp
      obtain ⟨heq, hleg⟩ := hp
      rw [heq] at hmem hleg
      exact PVLegal.cons b _ _ hmem hleg (ih _ _)
    · exact PVLegal.nil b

theorem validate_tt_sound (b : Board) (mv : Int) :
    ∀ hit : Bool, (hit = false → mv = 0) →
    ((validate_tt b hit mv).2 = 0 ∨
      ((validate_tt b hit mv).2 ∈ b.generate_moves ∧
        is_legal b (validate_tt b hit mv).2 = true)) := by
  intro hit hmiss
  by_cases hc : (hit = true ∧ mv ≠ 0)
  · by_cases hany : (b.generate_moves.any (fun lm => is_legal b lm ∧ lm = mv)) = true
    · have hv : validate_tt b hit mv = (hit, mv) := by
        simp only [validate_tt]
        rw [if_pos hc, if_pos hany]
      rw [hv]
      right
      obtain ⟨lm, hmem, hp⟩ := List.any_eq_true.mp hany
      simp only [decide_eq_true_eq] at hp
      obtain ⟨hleg, heq⟩ := hp
      subst heq
      exact ⟨hmem, hleg⟩
    · have hv : validate_tt b hit mv = (false, 0) := by
        simp only [validate_tt]
        rw [if_pos hc, if_neg hany]
      rw [hv]
      exact Or.inl rfl
  · have hv : validate_tt b hit mv = (hit, mv) := by
      simp only [validate_tt]
      rw [if_neg hc]
    rw [hv]
    left
    cases hit with
    | false => exact hmiss rfl
    | true =>
      by_contra h0
      exact hc ⟨rfl, h0⟩

theorem probe_validate_sound (tt : Nat → TTEntry) (hash : Nat) (depth : Int) (b : Board) :
    (validate_tt b (tt_probe tt hash depth).1 (tt_probe tt hash depth).2.2).2 = 0 ∨
    ((validate_tt b (tt_probe tt hash depth).1 (tt_probe tt hash depth).2.2).2 ∈
        b.generate_moves ∧
      is_legal b (validate_tt b (tt_probe tt hash depth).1
        (tt_probe tt hash depth).2.2).2 = true) := by
  have hsplit : tt_probe tt hash depth =
      (true, (tt (tt_index hash)).score, (tt (tt_index hash)).move) ∨
      tt_probe tt hash depth = (false, 0, 0) := by
    simp only [tt_probe]
    split_ifs with h1
    · left; rfl
    · right; rfl
  rcases hsplit with h | h <;> rw [h]
  · exact validate_tt_sound b (tt (tt_index hash)).move true (fun hc => nomatch hc)
  · exact validate_tt_sound b 0 false (fun _ => rfl)

/-- C2: a move read out of the transposition table is re-validated
against the current position's legal move set before use at all three
use sites, and after validation it is the null move 0 or a generated
legal move of the position: in `alpha_beta` the ordering move is
`(validate_tt b (tt_probe ...).1 (tt_probe ...).2.2).2`; every move
printed by `extract_pv` is a generated move passing `is_legal` in the
position it is played from; and the driver's per-iteration root
best-move update `bestMoveUpdate` (which reads the root TT entry's
stored move) yields 0 or a generated legal root move. -/
theorem c2_tt_move_validated_before_use :
    (∀ (tt : Nat → TTEntry) (hash : Nat) (depth : Int) (b : Board),
      (validate_tt b (tt_probe tt hash depth).1 (tt_probe tt hash depth).2.2).2 = 0 ∨
      ((validate_tt b (tt_probe tt hash depth).1 (tt_probe tt hash depth).2.2).2 ∈
          b.generate_moves ∧
        is_legal b (validate_tt b (tt_probe tt hash depth).1
          (tt_probe tt hash depth).2.2).2 = true)) ∧
    (∀ (tt : Nat → TTEntry) (b : Board) (maxd : Int), PVLegal b (extract_pv tt b maxd)) ∧
    (∀ (tt : Nat → TTEntry) (b : Board) (prev : Int),
      bestMoveUpdate tt b prev = 0 ∨
      (bestMoveUpdate tt b prev ∈ b.generate_moves ∧
        is_legal b (bestMoveUpdate tt b prev) = true)) := by
  refine ⟨fun tt hash depth b => probe_validate_sound tt hash depth b,
    fun tt b maxd => ?_, fun tt b prev => ?_⟩
  · simp only [extract_pv]
    exact extract_pv_loop_legal tt _ b []
  · rcases bestMoveUpdate_cases tt b prev with h | h
    · exact Or.inl h
    · exact Or.inr (isLegalIn_mem h)

end FC

namespace FC

-- ### C3: the TT cutoff ignores the bound flag

/-- C3 (amended): the TT cutoff in `alpha_beta` ignores the entry's
bound flag.  Whenever the probe hits (hash match, sufficient depth,
any nonzero flag — including flag 1, UPPER) at `depth > 0` and the
stored score is at least `beta`, the node immediately returns `beta`;
the flag is never consulted, so an upper-bound entry causes a
fail-high exactly like an exact or lower-bound one.  (This refutes the
original claim that an upper-bound score never by itself causes a
fail-high return of `beta` — see the counterexample.) -/
theorem c3_amended (cfg : SearchCtx) (fuel : Nat) (st : SState) (b : Board)
    (depth alpha beta color : Int) (allow_null : Bool)
    (hwin : ¬ max alpha (-MATE_SCORE + (cfg.maxDepthG - depth)) ≥
      min beta (MATE_SCORE - (cfg.maxDepthG - depth)))
    (h50 : is_fifty_move_draw b = false)
    (hrep : is_repetition_draw b st.history = false)
    (hins : is_insufficient_material b = false)
    (hhit : (validate_tt b (tt_probe st.tt b.hash depth).1
      (tt_probe st.tt b.hash depth).2.2).1 = true)
    (hd : depth > 0)
    (hsc : (tt_probe st.tt b.hash depth).2.1 ≥ beta) :
    alpha_beta cfg (fuel + 1) st b depth alpha beta color allow_null =
      (beta, { st with nodes := st.nodes + 1 }) := by
  simp only [alpha_beta]
  rw [if_neg hwin, if_neg (by simp [h50]), if_neg (by simp [hrep]),
    if_neg (by simp [hins]), if_pos ⟨hhit, hd, hsc⟩]

/-- The C3 transposition-table entry: an UPPER-bound entry (flag 1) for
`kpkBoard` at depth 5 with the out-of-window score 10000 and no move. -/
def c3Entry : TTEntry :=
  { hash := kpkBoard.hash, depth := 5, score := 10000, move := 0, flag := 1 }

/-- A transposition table holding exactly `c3Entry`. -/
def c3TT : Nat → TTEntry :=
  fun i => if i = tt_index kpkBoard.hash then c3Entry else zeroEntry

/-- Search state whose TT holds exactly `c3Entry`. -/
def c3State : SState := { initState with tt := c3TT }

/-- Claim C3 counterexample: on `kpkBoard` with window `(-100, 100)` at
depth 1, the UPPER-bound entry `c3Entry` (flag 1, score 10000) causes
an immediate fail-high return of `beta = 100`, while the identical call
with an empty table returns 0 — so the upper-bound entry by itself
caused the fail-high, contradicting the claim. -/
theorem c3_counterexample :
    c3Entry.flag = 1 ∧
    (alpha_beta cfgZero 31 c3State kpkBoard 1 (-100) 100 0 true).1 = 100 ∧
    (alpha_beta cfgZero 31 initState kpkBoard 1 (-100) 100 0 true).1 = 0 := by
  refine ⟨by decide, by decide, by decide⟩

/-- Claim C3 witness: `c3_amended` applied to `kpkBoard`, `c3State` and
the window `(-100, 50)` at depth 1. -/
theorem c3_witness :
    alpha_beta cfgZero (30 + 1) c3State kpkBoard 1 (-100) 50 0 true =
      (50, { c3State with nodes := c3State.nodes + 1 }) := by
  exact c3_amended cfgZero 30 c3State kpkBoard 1 (-100) 50 0 true
    (by decide) (by decide) (by decide) (by decide) (by decide) (by decide) (by decide)

end FC

namespace FC

-- ### C4: the search driver clears the position history

/-- C4 (amended): `search` clears the position-history stack before the
iterative-deepening loop, so its result is independent of the incoming
history: for every initial state the call behaves exactly as with that
state's history replaced by any other list.  Hashes of the game line
before the root therefore do **not** remain on the stack, and a
threefold repetition whose earlier occurrences lie before the root is
not detected — see the counterexample. -/
theorem c4_amended (cfg : SearchCtx) (ex : Frac → Frac) (p : HParams) (fuel : Nat)
    (st0 : SState) (g : Nat) (fen : String) (t d : Int) (h : List Nat) :
    search cfg ex p fuel { st0 with history := h } g fen t d =
      search cfg ex p fuel st0 g fen t d := rfl

/-- Claim C4 counterexample: with the persistent game history holding
`kpkBoard.hash` twice, `is_repetition_draw` is true and a root
`alpha_beta` call that keeps that history returns the draw score 0 —
but `search` on the same state returns score 100 (the evaluation
oracle's value), because the driver wiped the pre-root hashes. -/
theorem c4_counterexample :
    is_repetition_draw kpkBoard [kpkBoard.hash, kpkBoard.hash] = true ∧
    (alpha_beta cfg100 31 { initState with history := [kpkBoard.hash, kpkBoard.hash] }
      kpkBoard 1 (-2147483647) 2147483647 0 true).1 = 0 ∧
    (search cfg100 expOne noSelectParams 30
      { initState with history := [kpkBoard.hash, kpkBoard.hash] } 1 kpkFen 1000 1).map
        (fun r => r.1.score) = some 100 := by
  refine ⟨by decide, by decide, by decide⟩

end FC

namespace FC

-- ### C5: the human-selection layer and the search best move

theorem cumWalk_cases (r : Frac) :
    ∀ (l : List (CandidateMove × Frac)) (cum : Frac) (chosen : Int),
    cumWalk r cum l chosen = chosen ∨ ∃ q ∈ l, cumWalk r cum l chosen = q.1.move := by
  intro l
  induction l with
  | nil => intro cum chosen; left; rfl
  | cons p rest ih =>
    intro cum chosen
    simp only [cumWalk]
    split_ifs with h
    · right; exact ⟨p, List.mem_cons_self p rest, rfl⟩
    · rcases ih (fAdd cum p.2) chosen with h1 | ⟨q, hq, h2⟩
      · left; exact h1
      · right; exact ⟨q, List.mem_cons_of_mem p hq, h2⟩

theorem weights_foldl_mem (g : CandidateMove → Nat → Frac × Nat) :
    ∀ (l : List CandidateMove) (acc : List (CandidateMove × Frac) × Nat)
      (q : CandidateMove × Frac),
    q ∈ (l.foldl
      (fun acc c => (acc.1 ++ [(c, (g c acc.2).1)], (g c acc.2).2)) acc).1 →
    q.1 ∈ l ∨ q ∈ acc.1 := by
  intro l
  induction l with
  | nil => intro acc q hq; right; exact hq
  | cons c rest ih =>
    intro acc q hq
    rcases ih ((acc.1 ++ [(c, (g c acc.2).1)], (g c acc.2).2)) q hq with h | h
    · left; exact List.mem_cons_of_mem c h
    · rcases List.mem_append.mp h with h2 | h2
      · right; exact h2
      · left
        simp only [List.mem_singleton] at h2
        subst h2
        exact List.mem_cons_self c rest

theorem pick_human_move_mem (cfg : SearchCtx) (expFn : Frac → Frac) (prng : Nat)
    (cs : List CandidateMove) (best t n risk sac sb seed : Int) (h : cs ≠ []) :
    (pick_human_move cfg expFn prng cs best t n risk sac sb seed).1 ∈
      cs.map CandidateMove.move := by
  have hhead : (cs.headD default).move ∈ cs.map CandidateMove.move := by
    cases cs with
    | nil => exact absurd rfl h
    | cons a l => exact List.mem_map_of_mem _ (List.mem_cons_self a l)
  have main : ∀ (r cum : Frac) (l : List (CandidateMove × Frac)) (chosen : Int),
      chosen ∈ cs.map CandidateMove.move →
      (∀ q ∈ l, q.1 ∈ cs) →
      cumWalk r cum l chosen ∈ cs.map CandidateMove.move := by
    intro r cum l chosen hch hl
    rcases cumWalk_cases r l cum chosen with hc | ⟨q, hq, hc⟩
    · rw [hc]; exact hch
    · rw [hc]; exact List.mem_map_of_mem _ (hl q hq)
  simp only [pick_human_move]
  rw [if_neg h]
  split_ifs with h1
  · exact hhead
  · refine main _ _ _ _ hhead ?_
    intro q hq
    obtain ⟨p, hp, hqe⟩ := List.mem_map.mp hq
    have hm := weights_foldl_mem
      (fun c s => candWeight cfg expFn best n risk sb seed
        (fDiv (fOfInt t) (fOfInt 100)) c s) cs ([], prng) p hp
    rcases hm with hc | hc
    · rw [← hqe]; exact hc
    · exact absurd hc (List.not_mem_nil p)

/-- C5 (amended): with `HumanSelect=true` the move returned by the root
human-selection layer is **not** in general the search's best move:
`humanize` either keeps the search result's `best_move` or replaces it
by one of the moves of `collect_candidates` (the shallow static-eval
candidate list) that passes the root legality re-validation.  The
counterexample exhibits `HumanTemperature=0`, `CandidateMarginCp=200`
inputs on which the selected move differs from the search's best
move. -/
theorem c5_amended (cfg : SearchCtx) (ex : Frac → Frac) (p : HParams) (b : Board)
    (R : SearchResult) (g : Nat) :
    (humanize cfg ex p b R g).1.best_move = R.best_move ∨
    ((humanize cfg ex p b R g).1.best_move ∈
        (collect_candidates cfg b p.candidate_margin_cp p.candidate_moves_max 3
          p.human_hard_floor_cp p.human_opening_sanity p.human_topk_override
          b.halfmove_clock).map CandidateMove.move ∧
      isLegalIn b (humanize cfg ex p b R g).1.best_move = true) := by
  simp only [humanize]
  split_ifs with h1 h2 h3 h4
  · refine Or.inr ⟨?_, h4⟩
    exact pick_human_move_mem cfg ex g _ _ _ _ _ _ _ _ h2.1
  · exact Or.inl rfl
  · exact Or.inl rfl
  · exact Or.inl rfl
  · exact Or.inl rfl

/-- Claim C5 counterexample: over the oracle `evalSplit`, with
`HumanSelect=true`, `HumanTemperature=0` and `CandidateMarginCp=200`
(`tempZeroParams`), searching `kpkFen` at depth 1 returns the move
`e1d1` (the shallow-eval favourite), while the identical search with
the human layer off returns the search's best move `e2e3` — the
selected move is not the search's best move. -/
theorem c5_counterexample :
    tempZeroParams.human_select = true ∧
    tempZeroParams.human_temperature = 0 ∧
    tempZeroParams.candidate_margin_cp = 200 ∧
    (search cfgSplit expOne noSelectParams 30 initState 1 kpkFen 1000 1).map
      (fun r => r.1.best_move) = some 1292 ∧
    (search cfgSplit expOne tempZeroParams 30 initState 1 kpkFen 1000 1).map
      (fun r => r.1.best_move) = some 196 ∧
    move_to_uci 1292 = "e2e3" ∧ move_to_uci 196 = "e1d1" := by
  refine ⟨by decide, by decide, by decide, by decide, by decide, by decide, by decide⟩

end FC

namespace FC

-- ### C6: promotion-captures do not clear the captured rook's castling right

/-- C6 failing input: black to move, black pawn b2, white rook a1 with
the white queenside castling right, black rook a8 (so a plain rook
capture of a1 is also available for contrast). -/
def c6Fen : String := "r3k3/8/8/8/8/8/1p6/R3K3 b Q - 0 1"

/-- The parsed `c6Fen` board. -/
def c6Board : Board := ((set_from_fen c6Fen).map Prod.fst).getD emptyBoard

/-- The C6 failing move: the pawn on b2 (square 9) captures the rook on
a1 (square 0) and promotes to a queen. -/
def c6Move : Int := mkMove 9 0 MOVE_PROMOTION 3

/-- C6 (code bug): `make_move`'s promotion branch never updates
castling rights, so capturing the corner rook **by a pawn promotion**
leaves the victim's castling right set — while the same rook captured
by a plain move has the right cleared.  On `c6Board`, the legal
generated promotion-capture `b2xa1=Q` leaves `castleWQ` (white
queenside, the captured a1 rook's right) true, whereas the plain rook
capture `Ra8xa1` clears it. -/
theorem c6_code_bug :
    set_from_fen c6Fen = some (c6Board, true) ∧
    c6Board.castleWQ = true ∧
    move_flags c6Move = MOVE_PROMOTION ∧
    move_to c6Move = 0 ∧
    c6Board.piece_at 0 = ROOK ∧
    c6Board.color_at 0 = WHITE ∧
    c6Move ∈ c6Board.generate_moves ∧
    is_legal c6Board c6Move = true ∧
    (make_move c6Board c6Move).castleWQ = true ∧
    (make_move c6Board (mkMove2 56 0)).castleWQ = false := by
  refine ⟨by decide, by decide, by decide, by decide, by decide, by decide, by decide,
    by decide, by decide, by decide⟩

end FC

namespace FC

-- ### C7: the FEN loader never reports failure

/-- C7 (amended): `Board::set_from_fen` performs no validation and
returns `true` on every input on which it returns at all: whenever the
parse completes (the clock fields do not make `std::stoi` throw, and
the en-passant field is well-formed — the `none` cases of the model),
the reported status is `true`, regardless of whether the board field
covers 64 squares or the side-to-move token is `w`/`b`.  A board field
covering fewer squares or an unknown side token is silently accepted —
see the counterexample. -/
theorem c7_amended (fen : String) :
    (set_from_fen fen).map Prod.snd = none ∨
    (set_from_fen fen).map Prod.snd = some true := by
  simp only [set_from_fen]
  split
  · left; rfl
  · split
    · left; rfl
    · split
      · left; rfl
      · right; rfl

/-- Claim C7 counterexample: a FEN whose board field covers only 56
squares (seven ranks) and whose side-to-move token is `x` is accepted:
the loader returns `true` and silently constructs a position (with
side to move `BLACK = 1`, since any token other than `w` means black).
-/
theorem c7_counterexample :
    (set_from_fen "8/8/8/8/8/8/8 x KQkq - 0 1").map
      (fun p => (p.2, p.1.side_to_move)) = some (true, 1) := by decide

end FC

namespace FC

-- ### C8: an unmatched UCI move leaves the FEN unchanged

/-- C8: for every FEN that parses and every UCI string naming none of
the position's legal moves, `apply_uci_move` returns the caller's FEN
unchanged. -/
theorem c8_uci_mismatch_preserves_fen (fen uci : String) (bp : Board × Bool)
    (hparse : set_from_fen fen = some bp)
    (hmm : ∀ m ∈ bp.1.generate_moves, is_legal bp.1 m = true → move_to_uci m ≠ uci) :
    apply_uci_move fen uci = some fen := by
  simp only [apply_uci_move, hparse]
  have hfind : ((bp.1.generate_moves.filter (fun m => is_legal bp.1 m)).map
      (fun m => (m, move_to_uci m))).find? (fun p => p.2 = uci) = none := by
    rw [List.find?_eq_none]
    intro p hp
    obtain ⟨m, hm, hpe⟩ := List.mem_map.mp hp
    obtain ⟨hmem, hleg⟩ := List.mem_filter.mp hm
    intro hc
    simp only [decide_eq_true_eq] at hc
    rw [← hpe] at hc
    exact hmm m hmem hleg hc
  rw [hfind]
  rfl

/-- King vs king, white to move. -/
def kvkFen : String := "4k3/8/8/8/8/8/8/4K3 w - - 0 1"

/-- Claim C8 witness: `e1e8` is not a legal move of the king-vs-king
position, and `apply_uci_move` hands the FEN back unchanged. -/
theorem c8_witness : apply_uci_move kvkFen "e1e8" = some kvkFen := by
  exact c8_uci_mismatch_preserves_fen kvkFen "e1e8"
    ((set_from_fen kvkFen).getD (emptyBoard, false)) (by decide) (by decide)

end FC

namespace FC

-- ### C9: the candidate temp board wipes the destination square

theorem mask_testBit_self (sq : Int) (h0 : 0 ≤ sq) (h1 : sq < 64) :
    Nat.testBit ((U64MOD - 1) ^^^ (1 <<< sq.toNat)) sq.toNat = false := by
  have hlt : sq.toNat < 64 := by omega
  have hU : U64MOD - 1 = 2 ^ 64 - 1 := rfl
  rw [Nat.testBit_xor, Nat.shiftLeft_eq, one_mul, hU, Nat.testBit_two_pow_sub_one,
    Nat.testBit_two_pow_self]
  simp [hlt]

theorem remove_piece_empty (b : Board) (sq : Int) (h0 : 0 ≤ sq) (h1 : sq < 64) :
    (b.remove_piece sq).piece_at sq = NO_PIECE := by
  have hbb : ∀ x : Nat, bbTest (x &&& ((U64MOD - 1) ^^^ (1 <<< sq.toNat))) sq = false := by
    intro x
    simp [bbTest, Nat.testBit_and, mask_testBit_self sq h0 h1]
  simp only [Board.remove_piece, Board.piece_at]
  rw [if_neg (by omega : ¬ (sq < 0 ∨ 64 ≤ sq))]
  simp [hbb]

/-- C9: in `collect_candidates`, the temporary board built for a
capture (`remove_piece(to)` runs **after** the moving piece was placed
on the destination) reaches the legality screen and the evaluation
with an empty destination square: it contains neither the captured
piece nor the moving piece. -/
theorem c9_collect_temp_clears_destination (b : Board) (m : Int)
    (hne : move_to m ≠ move_from m)
    (hocc : b.piece_at (move_to m) ≠ NO_PIECE) :
    (collectTemp b m).piece_at (move_to m) = NO_PIECE := by
  have h0 : 0 ≤ move_to m := Int.emod_nonneg _ (by norm_num)
  have h1 : move_to m < 64 := Int.emod_lt_of_pos _ (by norm_num)
  have hocc0 : b.piece_at (move_to m) ≠ 0 := hocc
  simp only [collectTemp]
  rw [if_pos ⟨hne, hocc0⟩]
  exact remove_piece_empty _ _ h0 h1

/-- Claim C9 witness: on `c6Board` the generated rook capture `Ra8xa1`
targets an occupied square, and the candidate temp board has square a1
empty. -/
theorem c9_witness :
    move_to (mkMove2 56 0) ≠ move_from (mkMove2 56 0) ∧
    c6Board.piece_at (move_to (mkMove2 56 0)) ≠ NO_PIECE ∧
    mkMove2 56 0 ∈ c6Board.generate_moves ∧
    (collectTemp c6Board (mkMove2 56 0)).piece_at (move_to (mkMove2 56 0)) = NO_PIECE := by
  refine ⟨by decide, by decide, by decide,
    c9_collect_temp_clears_destination c6Board (mkMove2 56 0) (by decide) (by decide)⟩

end FC

namespace FC

-- ### C10: checkmate at the quiescence horizon scores as stand-pat

/-- C10: when the side to move is in check and no legal evasion
exists (checkmate), `quiescence` returns the static evaluation
(`evaluate_position`, the stand-pat value) instead of a mate score:
the in-check branch generates the legal evasions, finds the list
empty, and runs `return stand_pat`. -/
theorem c10_quiescence_checkmate_stand_pat (cfg : SearchCtx) (fuel : Nat) (st : SState)
    (b : Board) (alpha beta color : Int)
    (hchk : b.is_in_check color = true)
    (hnoev : b.generate_moves.filter (fun m => is_legal b m) = []) :
    quiescence cfg (fuel + 1) st b alpha beta color =
      (evaluate_position cfg st.history b color, { st with nodes := st.nodes + 1 }) := by
  simp [quiescence, hchk, hnoev]

/-- Back-rank mate: white Ra8 mates the black king on g8. -/
def c10Fen : String := "R5k1/5ppp/8/8/8/8/8/6K1 b - - 0 1"

/-- The parsed `c10Fen` board. -/
def c10Board : Board := ((set_from_fen c10Fen).map Prod.fst).getD emptyBoard

/-- Claim C10 witness: the mated side (black) is in check with no
legal evasions, and `quiescence` returns the stand-pat value -100
(the constant-100 oracle negated for black), not a mate-band score. -/
theorem c10_witness :
    c10Board.is_in_check 1 = true ∧
    c10Board.generate_moves.filter (fun m => is_legal c10Board m) = [] ∧
    quiescence cfg100 (30 + 1) initState c10Board (-2147483647) 2147483647 1 =
      (evaluate_position cfg100 initState.history c10Board 1,
        { initState with nodes := initState.nodes + 1 }) ∧
    evaluate_position cfg100 initState.history c10Board 1 = -100 := by
  refine ⟨by decide, by decide,
    c10_quiescence_checkmate_stand_pat cfg100 30 initState c10Board (-2147483647)
      2147483647 1 (by decide) (by decide), by decide⟩

end FC
